import Mathlib

/-!
Verification of the GSPro-Scoring match-play core.

This file shallowly embeds the scoring core of the repository
(`app/main.py`, `app/settings.py`, `app/db.py`) and proves or refutes the
frozen claims about it.  Python numbers are modelled as exact rationals
(`ℚ`); a Python value that may be `None` (or a non-numeric string, which
`_numeric_score` maps to `None`) is modelled as `Option ℚ`.  Python dicts
keyed by hole number are modelled as functions `ℕ → ℚ` / `ℕ → Option _`
plus an explicit key list where the iteration order matters.
-/

namespace GSPro

attribute [local semireducible] Rat.mul Rat.inv Rat.add Rat.sub

/-- A course hole as stored in the course table: `hole_number`, `par` and
`handicap` (the stroke index, 1 = hardest). -/
structure CourseHole where
  hole_number : ℕ
  par : ℤ
  handicap : ℕ
deriving DecidableEq, Repr

/-- One per-match per-hole score record (`hole_scores` row).  Gross scores and
stored nets are optional: a missing or non-numeric submission is `none`. -/
structure HoleEntry where
  hole_number : ℕ
  player_a_score : Option ℚ := none
  player_b_score : Option ℚ := none
  player_c_score : Option ℚ := none
  player_d_score : Option ℚ := none
  player_a_net : Option ℚ := none
  player_b_net : Option ℚ := none
deriving DecidableEq, Repr

/-! ### `_stroke_allocation` (app/main.py)

```python
def _stroke_allocation(total_strokes, course_holes):
    if not course_holes:
        return {}
    hole_count = len(course_holes)
    base = int(total_strokes // hole_count) if total_strokes > 0 else 0
    remainder = round(total_strokes - (base * hole_count), 3)
    allocation = {hole["hole_number"]: float(base) for hole in course_holes}
    sorted_holes = sorted(course_holes, key=lambda hole: hole["handicap"])
    idx = 0
    while remainder > 0 and sorted_holes:
        hole = sorted_holes[idx % hole_count]
        increment = 1.0 if remainder >= 1 else 0.5
        allocation[hole["hole_number"]] += increment
        remainder = round(remainder - increment, 3)
        idx += 1
    return allocation
```

The dict `allocation` is modelled as a function `ℕ → ℚ`; the final dict is
recovered as an association list over the (deduplicated) hole numbers.  The
`while` loop is modelled with explicit fuel: every iteration decreases
`2 * remainder` by at least `1`, so `⌈2 * remainder⌉ + 1` units of fuel are
enough for the loop to run to completion (the `round(_, 3)` calls are exact
on the rational values involved and are dropped). -/

/-- Pointwise update of the allocation dict. -/
def updateAlloc (f : ℕ → ℚ) (key : ℕ) (v : ℚ) : ℕ → ℚ :=
  fun n => if n = key then v else f n

/-- The `while remainder > 0 and sorted_holes` loop of `_stroke_allocation`,
with fuel.  `holeCount` is `len(course_holes)`, which in the source is also
the length of `sorted_holes`. -/
def allocLoop (sortedHoles : List CourseHole) (holeCount : ℕ) :
    ℕ → ℚ → ℕ → (ℕ → ℚ) → (ℕ → ℚ)
  | 0, _, _, alloc => alloc
  | fuel + 1, remainder, idx, alloc =>
    if 0 < remainder ∧ sortedHoles ≠ [] then
      match sortedHoles.get? (idx % holeCount) with
      | some hole =>
          let increment : ℚ := if 1 ≤ remainder then 1 else 1/2
          allocLoop sortedHoles holeCount fuel (remainder - increment) (idx + 1)
            (updateAlloc alloc hole.hole_number (alloc hole.hole_number + increment))
      | none => alloc
    else alloc

/-- `base = int(total_strokes // hole_count) if total_strokes > 0 else 0`. -/
def allocBase (total_strokes : ℚ) (hole_count : ℕ) : ℤ :=
  if 0 < total_strokes then ⌊total_strokes / (hole_count : ℚ)⌋ else 0

/-- The final allocation dict of `_stroke_allocation`, as a function.
Keys absent from the dict are sent to `0` (matching the
`strokes_for_a.get(number, 0.0)` reads in `_build_scorecard_rows`). -/
def strokeAllocFun (total_strokes : ℚ) (course_holes : List CourseHole) : ℕ → ℚ :=
  if course_holes = [] then fun _ => 0
  else
    let hole_count := course_holes.length
    let base := allocBase total_strokes hole_count
    let remainder := total_strokes - base * hole_count
    let init : ℕ → ℚ :=
      fun n => if n ∈ course_holes.map CourseHole.hole_number then (base : ℚ) else 0
    let sortedHoles := List.insertionSort (fun a b => a.handicap ≤ b.handicap) course_holes
    let fuel := (⌈(2 : ℚ) * remainder⌉).toNat + 1
    allocLoop sortedHoles hole_count fuel remainder 0 init

/-- `_stroke_allocation` itself: the returned dict, as an association list in
key-insertion order (for a list with duplicate hole numbers the dict keeps the
first insertion position of each key, which `List.dedup` does not reproduce;
all claims are about course lists with distinct hole numbers, where insertion
order is the list order). -/
def stroke_allocation (total_strokes : ℚ) (course_holes : List CourseHole) :
    List (ℕ × ℚ) :=
  if course_holes = [] then []
  else
    (course_holes.map CourseHole.hole_number).dedup.map
      (fun n => (n, strokeAllocFun total_strokes course_holes n))

/-! ### `_build_scorecard_rows` (app/main.py) -/

/-- A side of a singles match. -/
inductive Side where
  | A
  | B
deriving DecidableEq, Repr

/-- The per-hole result string of a scorecard row: `"A"`, `"B"`, `"Halved"`,
or the em-dash placeholder used when a side has no net score. -/
inductive HoleOutcome where
  | A
  | B
  | Halved
  | NoResult
deriving DecidableEq, Repr

/-- One derived scorecard row, mirroring the dict appended in
`_build_scorecard_rows`. -/
structure ScorecardRow where
  hole_number : ℕ
  par : ℤ
  handicap : ℕ
  gross_a : Option ℚ
  gross_b : Option ℚ
  player_a_score : Option ℚ
  player_b_score : Option ℚ
  player_c_score : Option ℚ
  player_d_score : Option ℚ
  strokes_a : ℚ
  strokes_b : ℚ
  net_a : Option ℚ
  net_b : Option ℚ
  net_diff : Option ℚ
  result : HoleOutcome
  points_a : Option ℚ
  points_b : Option ℚ
deriving DecidableEq, Repr

/-- The `meta` dict returned by `_build_scorecard_rows`. -/
structure ScorecardMeta where
  stroke_owner : Option Side
  stroke_count : ℚ
  is_nine_hole : Bool
  match_length : ℕ
  total_points_a : ℚ
  total_points_b : ℚ
  strokes_a : ℚ
  strokes_b : ℚ
  start_hole : ℕ
deriving DecidableEq, Repr

/-- The `{"rows": ..., "course": ..., "meta": ...}` dict returned by
`_build_scorecard_rows`. -/
structure ScorecardData where
  rows : List ScorecardRow
  course : List CourseHole
  meta : ScorecardMeta
deriving DecidableEq, Repr

/-- `hole_map = {entry["hole_number"]: entry for entry in holes}` — a dict
comprehension keeps the last entry for a duplicated key. -/
def holeMapLookup (holes : List HoleEntry) (n : ℕ) : Option HoleEntry :=
  (holes.filter (fun e => e.hole_number = n)).getLast?

/-- `start_hole or 1`: Python `or` replaces both `None` and `0` (falsy). -/
def pyOrNat (x : Option ℕ) (d : ℕ) : ℕ :=
  match x with
  | some n => if n = 0 then d else n
  | none => d

/-- The `while len(active_course) < hole_limit and sorted_course` walk.  The
first access uses the start index as-is (it is a valid index of the sorted
list); every subsequent index is reduced modulo the list length, exactly as in
the source (`idx = (idx + 1) % len(sorted_course)`). -/
def walkActive (s : List CourseHole) : ℕ → ℕ → List CourseHole
  | _, 0 => []
  | idx, n + 1 =>
    match s.get? idx with
    | some h => h :: walkActive s ((idx + 1) % s.length) n
    | none => []

/-- The active course subset selected by `_build_scorecard_rows` (the
`sorted_course` / `active_course` block, including the dead fallback to a
prefix of the raw list). -/
def activeCourse (course_holes : List CourseHole) (hole_limit : ℕ)
    (selected_start : ℕ) : List CourseHole :=
  let sorted_course := List.insertionSort (fun a b => a.hole_number ≤ b.hole_number) course_holes
  let active₀ : List CourseHole :=
    if sorted_course = [] then []
    else
      let hole_numbers := sorted_course.map CourseHole.hole_number
      let normalized :=
        if selected_start ∈ hole_numbers then selected_start else hole_numbers.headI
      walkActive sorted_course (hole_numbers.indexOf normalized) hole_limit
  if active₀ = [] ∧ course_holes ≠ [] then course_holes.take hole_limit else active₀

/-- The result / points tail of the `for hole in active_course` loop body,
given the already-computed net scores. -/
def scoreRow (number : ℕ) (par : ℤ) (handicap : ℕ)
    (player_a_score player_b_score player_c_score player_d_score : Option ℚ)
    (strokes_a strokes_b : ℚ) (net_a net_b : Option ℚ) : ScorecardRow :=
  match net_a, net_b with
  | some na, some nb =>
    let diff := na - nb
    if diff < 0 then
      { hole_number := number, par, handicap
        gross_a := player_a_score, gross_b := player_b_score
        player_a_score, player_b_score, player_c_score, player_d_score
        strokes_a, strokes_b, net_a, net_b, net_diff := some diff
        result := .A, points_a := some 1, points_b := none }
    else if 0 < diff then
      { hole_number := number, par, handicap
        gross_a := player_a_score, gross_b := player_b_score
        player_a_score, player_b_score, player_c_score, player_d_score
        strokes_a, strokes_b, net_a, net_b, net_diff := some diff
        result := .B, points_a := none, points_b := some 1 }
    else
      { hole_number := number, par, handicap
        gross_a := player_a_score, gross_b := player_b_score
        player_a_score, player_b_score, player_c_score, player_d_score
        strokes_a, strokes_b, net_a, net_b, net_diff := some diff
        result := .Halved, points_a := some (1/2), points_b := some (1/2) }
  | _, _ =>
    { hole_number := number, par, handicap
      gross_a := player_a_score, gross_b := player_b_score
      player_a_score, player_b_score, player_c_score, player_d_score
      strokes_a, strokes_b, net_a, net_b, net_diff := none
      result := .NoResult, points_a := none, points_b := none }

/-- `net = stored net if present else (gross - strokes if gross present)`. -/
def netScore (stored_net gross : Option ℚ) (strokes : ℚ) : Option ℚ :=
  match stored_net with
  | some v => some v
  | none => gross.map (fun g => g - strokes)

/-- The row built for one active hole (the body of the
`for hole in active_course` loop). -/
def buildRow (hole_map : ℕ → Option HoleEntry)
    (strokes_for_a strokes_for_b : ℕ → ℚ) (hole : CourseHole) : ScorecardRow :=
  let number := hole.hole_number
  let entry := hole_map number
  let gross_a := entry.bind HoleEntry.player_a_score
  let gross_b := entry.bind HoleEntry.player_b_score
  let strokes_a := strokes_for_a number
  let strokes_b := strokes_for_b number
  scoreRow number hole.par hole.handicap
    gross_a gross_b (entry.bind HoleEntry.player_c_score)
    (entry.bind HoleEntry.player_d_score) strokes_a strokes_b
    (netScore (entry.bind HoleEntry.player_a_net) gross_a strokes_a)
    (netScore (entry.bind HoleEntry.player_b_net) gross_b strokes_b)

/-- `_build_scorecard_rows`.  The running point totals accumulated in the loop
(`points_a_value` is `0.0` exactly when the display value is `None`) are
recovered as sums over the row list. -/
def build_scorecard_rows (holes : List HoleEntry) (handicap_a handicap_b : ℤ)
    (course_holes : List CourseHole) (match_length : ℕ := 18)
    (start_hole : Option ℕ := none) : ScorecardData :=
  let hole_map := holeMapLookup holes
  let max_recorded := (holes.map HoleEntry.hole_number).foldr max 0
  let effective_length :=
    if match_length = 9 ∨ match_length = 18 then match_length
    else if max_recorded ≠ 0 ∧ max_recorded ≤ 9 then 9 else 18
  let hole_limit := effective_length
  let is_nine_hole_match := hole_limit = 9
  let selected_start_hole := pyOrNat start_hole 1
  let active_course := activeCourse course_holes hole_limit selected_start_hole
  let stroke_diff := handicap_a - handicap_b
  let total_strokes : ℚ :=
    if is_nine_hole_match then (|stroke_diff| : ℤ) / 2 else ((|stroke_diff| : ℤ) : ℚ)
  let allocation := strokeAllocFun total_strokes active_course
  let strokes_for_a : ℕ → ℚ := if 0 < stroke_diff then allocation else fun _ => 0
  let strokes_for_b : ℕ → ℚ := if stroke_diff < 0 then allocation else fun _ => 0
  let rows := active_course.map (buildRow hole_map strokes_for_a strokes_for_b)
  { rows := rows
    course := active_course
    meta :=
      { stroke_owner :=
          if 0 < stroke_diff then some .A else if stroke_diff < 0 then some .B else none
        stroke_count := total_strokes
        is_nine_hole := is_nine_hole_match
        match_length := hole_limit
        total_points_a := (rows.map (fun r => r.points_a.getD 0)).sum
        total_points_b := (rows.map (fun r => r.points_b.getD 0)).sum
        strokes_a := if 0 < stroke_diff then total_strokes else 0
        strokes_b := if stroke_diff < 0 then total_strokes else 0
        start_hole := selected_start_hole } }

/-! ### Bonus classification (app/settings.py) and its gating (app/main.py) -/

/-- `bonus_for_points` (app/settings.py):

```python
def bonus_for_points(points, opponent_points):
    if points > opponent_points and points >= 5:
        return 1.0
    if points == opponent_points and points >= 4.5:
        return 0.5
    return 0.0
``` -/
def bonus_for_points (points opponent_points : ℚ) : ℚ :=
  if opponent_points < points ∧ 5 ≤ points then 1
  else if points = opponent_points ∧ 9/2 ≤ points then 1/2
  else 0

/-- `compute_bonus_points` (app/settings.py). -/
def compute_bonus_points (player_a_points player_b_points : ℚ)
    (allow_bonus : Bool := true) : ℚ × ℚ :=
  if !allow_bonus then (0, 0)
  else (bonus_for_points player_a_points player_b_points,
        bonus_for_points player_b_points player_a_points)

/-- Winner code of a match. -/
inductive Winner where
  | A
  | B
  | T
deriving DecidableEq, Repr

/-- The outcome dict built by `score_outcome` (app/settings.py). -/
structure Outcome where
  player_a_points : ℚ
  player_b_points : ℚ
  player_a_bonus : ℚ
  player_b_bonus : ℚ
  player_a_total : ℚ
  player_b_total : ℚ
  winner : Winner
deriving DecidableEq, Repr

/-- `score_outcome` (app/settings.py). -/
def score_outcome (player_a_points player_b_points : ℚ)
    (allow_bonus : Bool := true) : Outcome :=
  let winner : Winner :=
    if player_b_points < player_a_points then .A
    else if player_a_points < player_b_points then .B
    else .T
  let bonuses := compute_bonus_points player_a_points player_b_points allow_bonus
  { player_a_points, player_b_points
    player_a_bonus := bonuses.1
    player_b_bonus := bonuses.2
    player_a_total := player_a_points + bonuses.1
    player_b_total := player_b_points + bonuses.2
    winner }

/-- `_bonus_allowed` (app/main.py):

```python
def _bonus_allowed(recorded_count, expected_length):
    if recorded_count >= expected_length:
        return True
    return recorded_count in {9, 18}
``` -/
def bonus_allowed (recorded_count expected_length : ℕ) : Bool :=
  if expected_length ≤ recorded_count then true
  else decide (recorded_count = 9 ∨ recorded_count = 18)

/-- A stored manual bonus override (`match_bonus` table row, as returned by
`fetch_match_bonus`).  A missing value inside the row reads as `0.0` via
`float(bonus_override.get(...) or 0.0)`. -/
structure BonusOverride where
  player_a_bonus : Option ℚ := none
  player_b_bonus : Option ℚ := none
deriving DecidableEq, Repr

/-- Python `x or 0.0` over an optional float: `None` and `0.0` both give `0.0`. -/
def pyOrQ (x : Option ℚ) (d : ℚ) : ℚ :=
  match x with
  | some v => if v = 0 then d else v
  | none => d

/-- `_apply_bonus_constraints` (app/main.py). -/
def apply_bonus_constraints (outcome : Outcome) (total_a total_b : ℚ)
    (recorded_holes match_length : ℕ)
    (bonus_override : Option BonusOverride := none) : Outcome :=
  if !bonus_allowed recorded_holes match_length then
    { outcome with
        player_a_bonus := 0
        player_b_bonus := 0
        player_a_total := total_a
        player_b_total := total_b }
  else
    let player_a_bonus := outcome.player_a_bonus
    let player_b_bonus := outcome.player_b_bonus
    let player_a_bonus := match bonus_override with
      | some o => pyOrQ o.player_a_bonus 0
      | none => player_a_bonus
    let player_b_bonus := match bonus_override with
      | some o => pyOrQ o.player_b_bonus 0
      | none => player_b_bonus
    { outcome with
        player_a_bonus
        player_b_bonus
        player_a_total := total_a + player_a_bonus
        player_b_total := total_b + player_b_bonus }

/-! ### Scorecard reads (`_scorecard_data_for_match`, app/main.py)

The snapshot stored on a match result is modelled as `Option ScorecardData`
(an empty `{}` snapshot dict is falsy in the source, i.e. `none` here).  The
course reference data that `_course_holes_for_match` resolves from the
database is passed in explicitly as `course_env`. -/

/-- `_scorecard_data_for_match`:

```python
snapshot = (match_result.get("scorecard_snapshot") if match_result else None) or {}
if use_snapshot and snapshot.get("rows"):
    return {"rows": snapshot.get("rows", []), "course": ..., "meta": ...}
return _build_scorecard_rows(holes, handicap_a, handicap_b,
    _course_holes_for_match(match_result, tournament_settings),
    match_length=match_length or 18, start_hole=start_hole or 1)
``` -/
def scorecard_data_for_match (snapshot : Option ScorecardData)
    (holes : List HoleEntry) (handicap_a handicap_b : ℤ)
    (course_env : List CourseHole) (match_length : Option ℕ)
    (start_hole : Option ℕ) (use_snapshot : Bool := true) : ScorecardData :=
  match snapshot with
  | some s =>
    if use_snapshot ∧ s.rows ≠ [] then s
    else
      build_scorecard_rows holes handicap_a handicap_b course_env
        (pyOrNat match_length 18) (some (pyOrNat start_hole 1))
  | none =>
      build_scorecard_rows holes handicap_a handicap_b course_env
        (pyOrNat match_length 18) (some (pyOrNat start_hole 1))

/-! ### Standings cache policy (`build_standings`, app/main.py)

`fetch_standings_cache` / `fetch_players` are database reads; they are passed
in as the current cache rows and the live roster's player names.  What
`_refresh_standings_cache` followed by a re-fetch would produce
(`_aggregate_standings_entries` over the match results) is passed in as
`refreshed`. -/

instance : Inhabited HoleOutcome := ⟨.NoResult⟩

instance : Inhabited ScorecardRow :=
  ⟨{ hole_number := 0, par := 0, handicap := 0, gross_a := none, gross_b := none
     player_a_score := none, player_b_score := none, player_c_score := none
     player_d_score := none, strokes_a := 0, strokes_b := 0, net_a := none
     net_b := none, net_diff := none, result := .NoResult, points_a := none
     points_b := none }⟩

/-- One cached standings row (`standings_cache` table). -/
structure StandingRow where
  player_name : String
  division : String
  matches_played : ℕ := 0
  wins : ℕ := 0
  ties : ℕ := 0
  losses : ℕ := 0
  points_for : ℚ := 0
  points_against : ℚ := 0
  point_diff : ℚ := 0
  holes_played : ℕ := 0
deriving DecidableEq, Repr

/-- A normalized display row (`normalized["name"] = ...` plus the
`pts_remaining` computed after sorting). -/
structure StandingsPlayer extends StandingRow where
  name : String
  pts_remaining : ℚ
deriving DecidableEq, Repr

/-- One `{"division": ..., "players": ...}` group of the standings output. -/
structure DivisionGroup where
  division : String
  players : List StandingsPlayer
deriving DecidableEq, Repr

/-- The sort key `(-points_for, -wins, -ties, name)` as a binary relation. -/
def standingsOrder (x y : StandingsPlayer) : Prop :=
  y.points_for < x.points_for
    ∨ (x.points_for = y.points_for ∧ (y.wins < x.wins
      ∨ (x.wins = y.wins ∧ (y.ties < x.ties
        ∨ (x.ties = y.ties ∧ x.name ≤ y.name)))))

instance : DecidableRel standingsOrder := fun x y => by
  unfold standingsOrder
  infer_instance

/-- The staleness test on line 1164 of app/main.py:
`not cache_rows or (player_names and any(row["player_name"] not in player_names
for row in cache_rows))`. -/
def standings_cache_stale (cache_rows : List StandingRow)
    (player_names : List String) : Bool :=
  cache_rows.isEmpty
    || (!player_names.isEmpty
        && cache_rows.any (fun row => !player_names.contains row.player_name))

/-- The grouping/sorting tail of `build_standings`: group the chosen rows by
division, sort divisions by name and players by the standings key, and attach
`pts_remaining = max(0.0, 40 - holes_played)`. -/
def standingsGroups (rows : List StandingRow) : List DivisionGroup :=
  if rows = [] then []
  else
    let divisions := List.insertionSort (fun a b => a ≤ b) (rows.map StandingRow.division).dedup
    divisions.map (fun d =>
      let players :=
        ((rows.filter (fun r => r.division = d)).map
          (fun r => ({ toStandingRow := r, name := r.player_name
                       pts_remaining := max 0 (40 - (r.holes_played : ℚ)) } :
                       StandingsPlayer))).insertionSort standingsOrder
      { division := d, players := players })

/-- `build_standings` (app/main.py, for a non-`None` tournament id): rebuild
the cache when the staleness test fires, then group and sort. -/
def build_standings (cache_rows : List StandingRow) (player_names : List String)
    (refreshed : List StandingRow) : List DivisionGroup :=
  let rows :=
    if standings_cache_stale cache_rows player_names then refreshed else cache_rows
  standingsGroups rows

/-! ### The finalize target loop (`finalize_match`, app/main.py lines 3656-3722)

The match-result store is a list of `StoredMatch` records; the course data,
course display info, match length, start hole and pairing player ids resolved
by the endpoint before the loop are collected in `FinalizeEnv`. -/

/-- The fields of a `match_results` row touched by the finalize loop, plus the
hole scores recorded for it (`fetch_hole_scores`) and its `match_bonus` row
(`fetch_match_bonus`). -/
structure StoredMatch where
  id : ℕ
  finalized : Bool := false
  holes : List HoleEntry := []
  scorecard_snapshot : Option ScorecardData := none
  course_snapshot : Option String := none
  player_a_points : Option ℚ := none
  player_b_points : Option ℚ := none
  player_a_bonus : Option ℚ := none
  player_b_bonus : Option ℚ := none
  player_a_total : Option ℚ := none
  player_b_total : Option ℚ := none
  winner : Option Winner := none
  player_a_handicap : Option ℤ := none
  player_b_handicap : Option ℤ := none
  player_a_id : Option ℕ := none
  player_b_id : Option ℕ := none
  player_c_id : Option ℕ := none
  player_d_id : Option ℕ := none
  bonus_override : Option BonusOverride := none
deriving DecidableEq, Repr

/-- `fetch_match_result`: look a row up by id. -/
def fetch_match_result (db : List StoredMatch) (i : ℕ) : Option StoredMatch :=
  db.find? (fun m => m.id = i)

/-- Apply an update to the row with the given id. -/
def updateById (db : List StoredMatch) (i : ℕ) (f : StoredMatch → StoredMatch) :
    List StoredMatch :=
  db.map (fun m => if m.id = i then f m else m)

/-- Python `x or 0` over an optional int (`None` and `0` are falsy). -/
def pyOrZ (x : Option ℤ) (d : ℤ) : ℤ :=
  match x with
  | some v => if v = 0 then d else v
  | none => d

/-- Python `x or y` over two optional ids. -/
def pyOrOptNat (x y : Option ℕ) : Option ℕ :=
  match x with
  | some v => if v = 0 then y else some v
  | none => y

/-- `_estimate_points_from_raw_scores` (app/main.py). -/
def estimate_points_from_raw_scores (holes : List HoleEntry) : ℚ × ℚ :=
  holes.foldl
    (fun acc entry =>
      match entry.player_a_score, entry.player_b_score with
      | some a, some b =>
        if a < b then (acc.1 + 1, acc.2)
        else if b < a then (acc.1, acc.2 + 1)
        else (acc.1 + 1/2, acc.2 + 1/2)
      | _, _ => acc)
    (0, 0)

/-- `_match_scorecard_summary` (app/main.py), with both handicap arguments
supplied by the caller (as in the finalize loop, which passes
`target.get("player_X_handicap") or 0`). -/
def match_scorecard_summary (target : StoredMatch) (holes : List HoleEntry)
    (course_env : List CourseHole) (match_length start_hole : ℕ)
    (player_a_handicap player_b_handicap : ℤ) :
    Option ScorecardData × ℚ × ℚ :=
  if holes ≠ [] then
    let scorecard_data :=
      scorecard_data_for_match target.scorecard_snapshot holes
        player_a_handicap player_b_handicap course_env
        (some match_length) (some start_hole) false
    let total_points_a := scorecard_data.meta.total_points_a
    let total_points_b := scorecard_data.meta.total_points_b
    if total_points_a = 0 ∧ total_points_b = 0 then
      let fallback := estimate_points_from_raw_scores holes
      if 0 < fallback.1 ∨ 0 < fallback.2 then
        (some { scorecard_data with
                  meta := { scorecard_data.meta with
                              total_points_a := fallback.1
                              total_points_b := fallback.2 } },
         fallback.1, fallback.2)
      else (some scorecard_data, total_points_a, total_points_b)
    else (some scorecard_data, total_points_a, total_points_b)
  else
    (target.scorecard_snapshot,
     pyOrQ target.player_a_total (pyOrQ target.player_a_points 0),
     pyOrQ target.player_b_total (pyOrQ target.player_b_points 0))

/-- Context resolved by `finalize_match` before its target loop. -/
structure FinalizeEnv where
  course_env : List CourseHole
  course_info : Option String := none
  match_length : ℕ := 18
  start_hole : ℕ := 1
  player_a_id : Option ℕ := none
  player_b_id : Option ℕ := none
  player_c_id : Option ℕ := none
  player_d_id : Option ℕ := none
deriving Repr

/-- The running state of the finalize target loop. -/
structure FinalizeState where
  db : List StoredMatch
  finalized_any : Bool := false
  src : Option (ℕ × StoredMatch × List HoleEntry) := none
  target_records : List (ℕ × StoredMatch) := []

/-- One pass of `for target_id in sorted(target_ids)` in `finalize_match`
(app/main.py lines 3660-3719). -/
def finalizeStep (env : FinalizeEnv) (st : FinalizeState) (i : ℕ) : FinalizeState :=
  match fetch_match_result st.db i with
  | none => st
  | some target =>
    if target.finalized then { st with finalized_any := true }
    else
      let holes := target.holes
      let src :=
        if holes ≠ [] ∧ st.src = none then some (i, target, holes) else st.src
      let summary :=
        match_scorecard_summary target holes env.course_env env.match_length
          env.start_hole (pyOrZ target.player_a_handicap 0)
          (pyOrZ target.player_b_handicap 0)
      let scorecard_data := summary.1
      let total_points_a := summary.2.1
      let total_points_b := summary.2.2
      let outcome := score_outcome total_points_a total_points_b
      let bonus_override := target.bonus_override
      let adjusted :=
        apply_bonus_constraints outcome total_points_a total_points_b
          env.match_length env.match_length bonus_override
      let db₁ := updateById st.db i (fun m =>
        let m := { m with
          player_a_points := some total_points_a
          player_b_points := some total_points_b
          player_a_bonus := some adjusted.player_a_bonus
          player_b_bonus := some adjusted.player_b_bonus
          player_a_total := some adjusted.player_a_total
          player_b_total := some adjusted.player_b_total
          winner := some outcome.winner }
        let m := match pyOrOptNat env.player_a_id target.player_a_id with
          | some v => { m with player_a_id := some v }
          | none => m
        let m := match pyOrOptNat env.player_b_id target.player_b_id with
          | some v => { m with player_b_id := some v }
          | none => m
        let m := match env.player_c_id with
          | some v => { m with player_c_id := some v }
          | none => m
        match env.player_d_id with
          | some v => { m with player_d_id := some v }
          | none => m)
      let newBonus : BonusOverride :=
        { player_a_bonus := some adjusted.player_a_bonus
          player_b_bonus := some adjusted.player_b_bonus }
      let db₂ := updateById db₁ i (fun m =>
        { m with bonus_override := some newBonus })
      let db₃ := updateById db₂ i (fun m =>
        { m with
            finalized := true
            course_snapshot := env.course_info
            scorecard_snapshot := scorecard_data })
      { db := db₃
        finalized_any := true
        src := src
        target_records := st.target_records ++ [(i, target)] }

/-- The finalize target loop over `sorted(target_ids)` followed by the
`if not finalized_any: raise HTTPException(400, "No matches were finalized.")`
check (app/main.py lines 3656-3722).  On success the updated store is
returned. -/
def finalize_match_targets (env : FinalizeEnv) (db : List StoredMatch)
    (target_ids : List ℕ) : Except String FinalizeState :=
  let st := target_ids.foldl (finalizeStep env) { db := db }
  if !st.finalized_any then Except.error "No matches were finalized."
  else Except.ok st

/-! ## Row-level lemmas -/

theorem scoreRow_net_a (number : ℕ) (par : ℤ) (handicap : ℕ)
    (a b c d : Option ℚ) (sa sb : ℚ) (na nb : Option ℚ) :
    (scoreRow number par handicap a b c d sa sb na nb).net_a = na := by
  cases na <;> cases nb <;> simp only [scoreRow] <;> split_ifs <;> rfl

theorem scoreRow_net_b (number : ℕ) (par : ℤ) (handicap : ℕ)
    (a b c d : Option ℚ) (sa sb : ℚ) (na nb : Option ℚ) :
    (scoreRow number par handicap a b c d sa sb na nb).net_b = nb := by
  cases na <;> cases nb <;> simp only [scoreRow] <;> split_ifs <;> rfl

theorem scoreRow_gross_a (number : ℕ) (par : ℤ) (handicap : ℕ)
    (a b c d : Option ℚ) (sa sb : ℚ) (na nb : Option ℚ) :
    (scoreRow number par handicap a b c d sa sb na nb).gross_a = a := by
  cases na <;> cases nb <;> simp only [scoreRow] <;> split_ifs <;> rfl

theorem scoreRow_strokes_a (number : ℕ) (par : ℤ) (handicap : ℕ)
    (a b c d : Option ℚ) (sa sb : ℚ) (na nb : Option ℚ) :
    (scoreRow number par handicap a b c d sa sb na nb).strokes_a = sa := by
  cases na <;> cases nb <;> simp only [scoreRow] <;> split_ifs <;> rfl

theorem scoreRow_strokes_b (number : ℕ) (par : ℤ) (handicap : ℕ)
    (a b c d : Option ℚ) (sa sb : ℚ) (na nb : Option ℚ) :
    (scoreRow number par handicap a b c d sa sb na nb).strokes_b = sb := by
  cases na <;> cases nb <;> simp only [scoreRow] <;> split_ifs <;> rfl

theorem scoreRow_points_some (number : ℕ) (par : ℤ) (handicap : ℕ)
    (a b c d : Option ℚ) (sa sb : ℚ) (na nb : ℚ) :
    (scoreRow number par handicap a b c d sa sb (some na) (some nb)).points_a.getD 0
      + (scoreRow number par handicap a b c d sa sb (some na) (some nb)).points_b.getD 0
      = 1 := by
  simp only [scoreRow]
  split_ifs <;> norm_num

theorem scoreRow_points_none (number : ℕ) (par : ℤ) (handicap : ℕ)
    (a b c d : Option ℚ) (sa sb : ℚ) (na nb : Option ℚ)
    (h : na = none ∨ nb = none) :
    (scoreRow number par handicap a b c d sa sb na nb).points_a = none
      ∧ (scoreRow number par handicap a b c d sa sb na nb).points_b = none := by
  rcases h with h | h
  · subst h; cases nb <;> exact ⟨rfl, rfl⟩
  · subst h; cases na <;> exact ⟨rfl, rfl⟩

theorem buildRow_eq (hole_map : ℕ → Option HoleEntry)
    (strokes_for_a strokes_for_b : ℕ → ℚ) (hole : CourseHole) :
    buildRow hole_map strokes_for_a strokes_for_b hole
      = scoreRow hole.hole_number hole.par hole.handicap
          ((hole_map hole.hole_number).bind HoleEntry.player_a_score)
          ((hole_map hole.hole_number).bind HoleEntry.player_b_score)
          ((hole_map hole.hole_number).bind HoleEntry.player_c_score)
          ((hole_map hole.hole_number).bind HoleEntry.player_d_score)
          (strokes_for_a hole.hole_number) (strokes_for_b hole.hole_number)
          (netScore ((hole_map hole.hole_number).bind HoleEntry.player_a_net)
            ((hole_map hole.hole_number).bind HoleEntry.player_a_score)
            (strokes_for_a hole.hole_number))
          (netScore ((hole_map hole.hole_number).bind HoleEntry.player_b_net)
            ((hole_map hole.hole_number).bind HoleEntry.player_b_score)
            (strokes_for_b hole.hole_number)) := rfl

theorem build_scorecard_rows_rows (holes : List HoleEntry)
    (handicap_a handicap_b : ℤ) (course_holes : List CourseHole)
    (match_length : ℕ) (start_hole : Option ℕ) :
    ∃ strokes_for_a strokes_for_b,
      (build_scorecard_rows holes handicap_a handicap_b course_holes
          match_length start_hole).rows
        = ((build_scorecard_rows holes handicap_a handicap_b course_holes
            match_length start_hole).course).map
            (buildRow (holeMapLookup holes) strokes_for_a strokes_for_b) :=
  ⟨_, _, rfl⟩

/-- C2: for every hole of a singles scorecard produced by
`_build_scorecard_rows`, if both sides' net scores are present the points
awarded to the two sides sum to exactly 1 (1/0 or 0.5/0.5); if either net is
absent both sides receive no points for the hole. -/
theorem claim_C2_point_conservation (holes : List HoleEntry)
    (handicap_a handicap_b : ℤ) (course_holes : List CourseHole)
    (match_length : ℕ) (start_hole : Option ℕ) (row : ScorecardRow)
    (hrow : row ∈ (build_scorecard_rows holes handicap_a handicap_b course_holes
        match_length start_hole).rows) :
    (row.net_a.isSome ∧ row.net_b.isSome →
        row.points_a.getD 0 + row.points_b.getD 0 = 1
          ∧ ((row.points_a = some 1 ∧ row.points_b = none)
              ∨ (row.points_a = none ∧ row.points_b = some 1)
              ∨ (row.points_a = some (1/2) ∧ row.points_b = some (1/2))))
      ∧ (row.net_a = none ∨ row.net_b = none →
          row.points_a = none ∧ row.points_b = none) := by
  obtain ⟨sfa, sfb, hr⟩ := build_scorecard_rows_rows holes handicap_a handicap_b
    course_holes match_length start_hole
  rw [hr] at hrow
  obtain ⟨hole, -, heq⟩ := List.mem_map.mp hrow
  subst heq
  rw [buildRow_eq]
  generalize netScore ((holeMapLookup holes hole.hole_number).bind HoleEntry.player_a_net)
    ((holeMapLookup holes hole.hole_number).bind HoleEntry.player_a_score)
    (sfa hole.hole_number) = na
  generalize netScore ((holeMapLookup holes hole.hole_number).bind HoleEntry.player_b_net)
    ((holeMapLookup holes hole.hole_number).bind HoleEntry.player_b_score)
    (sfb hole.hole_number) = nb
  cases na with
  | none =>
    constructor
    · rintro ⟨ha, -⟩
      rw [scoreRow_net_a] at ha
      simp at ha
    · intro _
      exact scoreRow_points_none _ _ _ _ _ _ _ _ _ _ _ (Or.inl rfl)
  | some va =>
    cases nb with
    | none =>
      constructor
      · rintro ⟨-, hb⟩
        rw [scoreRow_net_b] at hb
        simp at hb
      · intro _
        exact scoreRow_points_none _ _ _ _ _ _ _ _ _ _ _ (Or.inr rfl)
    | some vb =>
      constructor
      · intro _
        refine ⟨scoreRow_points_some _ _ _ _ _ _ _ _ _ _ _, ?_⟩
        simp only [scoreRow]
        split_ifs <;> simp
      · intro h
        rcases h with h | h
        · rw [scoreRow_net_a] at h; simp at h
        · rw [scoreRow_net_b] at h; simp at h

/-- Concrete fixture for the C2 witness. -/
def c2Entry : HoleEntry :=
  { hole_number := 1, player_a_score := some 4, player_b_score := some 5 }

/-- Concrete fixture for the C2 witness. -/
def c2Course : List CourseHole := [⟨1, 4, 1⟩, ⟨2, 4, 2⟩]

/-- Witness for C2 at a concrete input: one recorded hole with both gross
scores present. -/
theorem claim_C2_point_conservation_witness :
    ∃ row ∈ (build_scorecard_rows [c2Entry] 0 0 c2Course 18 none).rows,
      (row.net_a.isSome ∧ row.net_b.isSome →
          row.points_a.getD 0 + row.points_b.getD 0 = 1
            ∧ ((row.points_a = some 1 ∧ row.points_b = none)
                ∨ (row.points_a = none ∧ row.points_b = some 1)
                ∨ (row.points_a = some (1/2) ∧ row.points_b = some (1/2))))
        ∧ (row.net_a = none ∨ row.net_b = none →
            row.points_a = none ∧ row.points_b = none) := by
  refine ⟨(build_scorecard_rows [c2Entry] 0 0 c2Course 18 none).rows.headI,
    by decide, ?_⟩
  exact claim_C2_point_conservation [c2Entry] 0 0 c2Course 18 none
    ((build_scorecard_rows [c2Entry] 0 0 c2Course 18 none).rows.headI) (by decide)

/-! ## C4: bonus eligibility gating and overrides -/

theorem bonus_allowed_iff (recorded_count expected_length : ℕ) :
    bonus_allowed recorded_count expected_length = true
      ↔ (expected_length ≤ recorded_count
          ∨ recorded_count = 9 ∨ recorded_count = 18) := by
  unfold bonus_allowed
  split_ifs with h
  · simp [h]
  · simp [h]

/-- C4: the bonus is applied only when `recorded_hole_count ≥ match_length` or
`recorded_hole_count ∈ {9, 18}`; when ineligible both bonuses are forced to 0
and the totals equal the raw points, ignoring any caller-supplied override;
when eligible a supplied override replaces the computed bonuses, and absent an
override the computed bonuses stand. -/
theorem claim_C4_bonus_gating (outcome : Outcome) (total_a total_b : ℚ)
    (recorded_holes match_length : ℕ) (ov : Option BonusOverride) :
    (¬(match_length ≤ recorded_holes
        ∨ recorded_holes = 9 ∨ recorded_holes = 18) →
      apply_bonus_constraints outcome total_a total_b recorded_holes
          match_length ov
        = { outcome with
              player_a_bonus := 0, player_b_bonus := 0
              player_a_total := total_a, player_b_total := total_b })
    ∧ ((match_length ≤ recorded_holes
        ∨ recorded_holes = 9 ∨ recorded_holes = 18) →
        (∀ o, ov = some o →
          apply_bonus_constraints outcome total_a total_b recorded_holes
              match_length ov
            = { outcome with
                  player_a_bonus := pyOrQ o.player_a_bonus 0
                  player_b_bonus := pyOrQ o.player_b_bonus 0
                  player_a_total := total_a + pyOrQ o.player_a_bonus 0
                  player_b_total := total_b + pyOrQ o.player_b_bonus 0 })
          ∧ (ov = none →
            apply_bonus_constraints outcome total_a total_b recorded_holes
                match_length ov
              = { outcome with
                    player_a_total := total_a + outcome.player_a_bonus
                    player_b_total := total_b + outcome.player_b_bonus })) := by
  constructor
  · intro h
    have hb : bonus_allowed recorded_holes match_length = false := by
      rcases hb : bonus_allowed recorded_holes match_length with _ | _
      · rfl
      · exact absurd ((bonus_allowed_iff _ _).mp hb) h
    unfold apply_bonus_constraints
    rw [hb]
    rfl
  · intro h
    have hb : bonus_allowed recorded_holes match_length = true :=
      (bonus_allowed_iff _ _).mpr h
    constructor
    · rintro o rfl
      unfold apply_bonus_constraints
      rw [hb]
      rfl
    · rintro rfl
      unfold apply_bonus_constraints
      rw [hb]
      rfl

/-- Witness for C4: an 18-hole match with only 10 recorded holes is
ineligible, so a supplied override of 1 bonus point is ignored. -/
theorem claim_C4_bonus_gating_witness :
    apply_bonus_constraints (score_outcome 5 3) 5 3 10 18
        (some { player_a_bonus := some 1, player_b_bonus := some 0 })
      = { score_outcome 5 3 with
            player_a_bonus := 0, player_b_bonus := 0
            player_a_total := 5, player_b_total := 3 } :=
  (claim_C4_bonus_gating (score_outcome 5 3) 5 3 10 18
    (some { player_a_bonus := some 1, player_b_bonus := some 0 })).1 (by decide)

/-! ## C5: the bonus rule -/

/-- The bonus rule exactly as the claim words it: a side scoring at least 5
points earns a 1.0 bonus, a side tied with its opponent at exactly 4.5 points
earns a 0.5 bonus, every other case earns 0. -/
def claimedBonusC5 (points opponent_points : ℚ) : ℚ :=
  if 5 ≤ points then 1
  else if points = opponent_points ∧ points = 9/2 then 1/2
  else 0

/-- C5 fails on the code: with both sides on 5 points in an eligible match the
claim awards each side a 1.0 bonus (5 ≥ 5), but `bonus_for_points` requires a
strictly higher score for the 1.0 bonus and instead awards the ≥ 4.5 tie bonus
of 0.5. -/
theorem claim_C5_counterexample :
    claimedBonusC5 5 5 = 1
    ∧ (apply_bonus_constraints (score_outcome 5 5) 5 5 18 18 none).player_a_bonus
        = 1/2
    ∧ (apply_bonus_constraints (score_outcome 5 5) 5 5 18 18 none).player_a_bonus
        ≠ claimedBonusC5 5 5 := by decide

/-- C5 (amended): when the bonus is eligible and no override is stored, a side
with strictly more points than its opponent and at least 5 points earns a 1.0
bonus; sides tied at 4.5 points or more earn 0.5 each; every other case earns
0. -/
theorem claim_C5_bonus_rule (p q : ℚ) (recorded_holes match_length : ℕ)
    (helig : match_length ≤ recorded_holes
      ∨ recorded_holes = 9 ∨ recorded_holes = 18) :
    (q < p ∧ 5 ≤ p →
      (apply_bonus_constraints (score_outcome p q) p q recorded_holes
          match_length none).player_a_bonus = 1
      ∧ (apply_bonus_constraints (score_outcome p q) p q recorded_holes
          match_length none).player_b_bonus = 0)
    ∧ (p = q ∧ 9/2 ≤ p →
      (apply_bonus_constraints (score_outcome p q) p q recorded_holes
          match_length none).player_a_bonus = 1/2
      ∧ (apply_bonus_constraints (score_outcome p q) p q recorded_holes
          match_length none).player_b_bonus = 1/2)
    ∧ (¬(q < p ∧ 5 ≤ p) ∧ ¬(p = q ∧ 9/2 ≤ p) →
      (apply_bonus_constraints (score_outcome p q) p q recorded_holes
          match_length none).player_a_bonus = 0)
    ∧ (¬(p < q ∧ 5 ≤ q) ∧ ¬(p = q ∧ 9/2 ≤ q) →
      (apply_bonus_constraints (score_outcome p q) p q recorded_holes
          match_length none).player_b_bonus = 0) := by
  have hb : bonus_allowed recorded_holes match_length = true :=
    (bonus_allowed_iff _ _).mpr helig
  have hput : ∀ r : ℚ, ∀ s : ℚ,
      (apply_bonus_constraints (score_outcome r s) r s recorded_holes
        match_length none).player_a_bonus = bonus_for_points r s := by
    intro r s
    unfold apply_bonus_constraints
    rw [hb]
    rfl
  have hputb : ∀ r : ℚ, ∀ s : ℚ,
      (apply_bonus_constraints (score_outcome r s) r s recorded_holes
        match_length none).player_b_bonus = bonus_for_points s r := by
    intro r s
    unfold apply_bonus_constraints
    rw [hb]
    rfl
  refine ⟨?_, ?_, ?_, ?_⟩
  · rintro ⟨hqp, hp5⟩
    constructor
    · rw [hput]
      unfold bonus_for_points
      rw [if_pos ⟨hqp, hp5⟩]
    · rw [hputb]
      unfold bonus_for_points
      have hn1 : ¬(p < q ∧ 5 ≤ q) := by
        rintro ⟨h1', -⟩
        exact lt_irrefl p (h1'.trans hqp)
      have hn2 : ¬(q = p ∧ 9/2 ≤ q) := by
        rintro ⟨h1', -⟩
        rw [h1'] at hqp
        exact lt_irrefl p hqp
      rw [if_neg hn1, if_neg hn2]
  · rintro ⟨rfl, hp45⟩
    constructor
    · rw [hput]
      unfold bonus_for_points
      rw [if_neg (by rintro ⟨hlt, -⟩; exact lt_irrefl p hlt), if_pos ⟨rfl, hp45⟩]
    · rw [hputb]
      unfold bonus_for_points
      rw [if_neg (by rintro ⟨hlt, -⟩; exact lt_irrefl p hlt), if_pos ⟨rfl, hp45⟩]
  · rintro ⟨h1, h3⟩
    rw [hput]
    unfold bonus_for_points
    rw [if_neg h1, if_neg h3]
  · rintro ⟨h2, h3⟩
    rw [hputb]
    unfold bonus_for_points
    have hneg : ¬(q = p ∧ 9/2 ≤ q) := by
      rintro ⟨hqp, h45⟩
      exact h3 ⟨hqp.symm, h45⟩
    rw [if_neg h2, if_neg hneg]

/-- Witness for C5 (spec P4): a 4.5–4.5 tie over 18 recorded holes earns each
side the 0.5 bonus. -/
theorem claim_C5_bonus_rule_witness :
    (apply_bonus_constraints (score_outcome (9/2) (9/2)) (9/2) (9/2) 18 18
        none).player_a_bonus = 1/2
    ∧ (apply_bonus_constraints (score_outcome (9/2) (9/2)) (9/2) (9/2) 18 18
        none).player_b_bonus = 1/2 :=
  (claim_C5_bonus_rule (9/2) (9/2) 18 18 (Or.inl (le_refl 18))).2.1
    ⟨rfl, le_refl _⟩

/-! ## C7: finalized snapshots win over live recomputes -/

/-- C7: once a non-empty scorecard snapshot is stored on a match, a
default-mode scorecard read returns the snapshot itself, so it is unaffected
by the hole scores, handicaps, course reference data, match length or start
hole in effect at read time. -/
theorem claim_C7_snapshot_immutable (s : ScorecardData) (hs : s.rows ≠ [])
    (holes holes' : List HoleEntry) (ha hb ha' hb' : ℤ)
    (env env' : List CourseHole) (ml ml' sh sh' : Option ℕ) :
    scorecard_data_for_match (some s) holes ha hb env ml sh true = s
    ∧ scorecard_data_for_match (some s) holes ha hb env ml sh true
        = scorecard_data_for_match (some s) holes' ha' hb' env' ml' sh' true := by
  have h1 : scorecard_data_for_match (some s) holes ha hb env ml sh true = s := by
    simp [scorecard_data_for_match, hs]
  have h2 : scorecard_data_for_match (some s) holes' ha' hb' env' ml' sh' true
      = s := by
    simp [scorecard_data_for_match, hs]
  exact ⟨h1, h1.trans h2.symm⟩

/-- A one-row snapshot fixture for the C7 witness. -/
def c7Snapshot : ScorecardData :=
  { rows := [default]
    course := []
    meta := { stroke_owner := none, stroke_count := 0, is_nine_hole := false
              match_length := 18, total_points_a := 0, total_points_b := 0
              strokes_a := 0, strokes_b := 0, start_hole := 1 } }

/-- Witness for C7: reads of the fixture snapshot under two different course
environments agree and return the snapshot. -/
theorem claim_C7_snapshot_immutable_witness :
    scorecard_data_for_match (some c7Snapshot) [] 0 0 [] none none true
        = c7Snapshot
    ∧ scorecard_data_for_match (some c7Snapshot) [] 0 0 [] none none true
        = scorecard_data_for_match (some c7Snapshot) [c2Entry] 12 6 c2Course
            (some 9) (some 10) true :=
  claim_C7_snapshot_immutable c7Snapshot (by decide) [] [c2Entry] 0 0 12 6
    [] c2Course none (some 9) none (some 10)

/-! ## C3: net computation and per-hole result -/

theorem scoreRow_hole_number (number : ℕ) (par : ℤ) (handicap : ℕ)
    (a b c d : Option ℚ) (sa sb : ℚ) (na nb : Option ℚ) :
    (scoreRow number par handicap a b c d sa sb na nb).hole_number = number := by
  cases na <;> cases nb <;> simp only [scoreRow] <;> split_ifs <;> rfl

theorem scoreRow_gross_b (number : ℕ) (par : ℤ) (handicap : ℕ)
    (a b c d : Option ℚ) (sa sb : ℚ) (na nb : Option ℚ) :
    (scoreRow number par handicap a b c d sa sb na nb).gross_b = b := by
  cases na <;> cases nb <;> simp only [scoreRow] <;> split_ifs <;> rfl

theorem scoreRow_result_cases (number : ℕ) (par : ℤ) (handicap : ℕ)
    (a b c d : Option ℚ) (sa sb : ℚ) (na nb : ℚ) :
    (na < nb →
      (scoreRow number par handicap a b c d sa sb (some na) (some nb)).result = .A
      ∧ (scoreRow number par handicap a b c d sa sb (some na) (some nb)).points_a
          = some 1
      ∧ (scoreRow number par handicap a b c d sa sb (some na) (some nb)).points_b
          = none)
    ∧ (nb < na →
      (scoreRow number par handicap a b c d sa sb (some na) (some nb)).result = .B
      ∧ (scoreRow number par handicap a b c d sa sb (some na) (some nb)).points_a
          = none
      ∧ (scoreRow number par handicap a b c d sa sb (some na) (some nb)).points_b
          = some 1)
    ∧ (na = nb →
      (scoreRow number par handicap a b c d sa sb (some na) (some nb)).result
          = .Halved
      ∧ (scoreRow number par handicap a b c d sa sb (some na) (some nb)).points_a
          = some (1/2)
      ∧ (scoreRow number par handicap a b c d sa sb (some na) (some nb)).points_b
          = some (1/2)) := by
  refine ⟨?_, ?_, ?_⟩
  · intro h
    simp only [scoreRow]
    rw [if_pos (sub_neg.mpr h)]
    exact ⟨rfl, rfl, rfl⟩
  · intro h
    simp only [scoreRow]
    rw [if_neg (not_lt.mpr (sub_nonneg.mpr h.le)), if_pos (sub_pos.mpr h)]
    exact ⟨rfl, rfl, rfl⟩
  · intro h
    subst h
    simp only [scoreRow, sub_self]
    rw [if_neg (lt_irrefl 0), if_neg (lt_irrefl 0)]
    exact ⟨rfl, rfl, rfl⟩

theorem scoreRow_noresult (number : ℕ) (par : ℤ) (handicap : ℕ)
    (a b c d : Option ℚ) (sa sb : ℚ) (na nb : Option ℚ)
    (h : na = none ∨ nb = none) :
    (scoreRow number par handicap a b c d sa sb na nb).result = .NoResult := by
  rcases h with h | h
  · subst h; cases nb <;> rfl
  · subst h; cases na <;> rfl

/-- Course-hole fixture for the C3 counterexample. -/
def c3Hole : CourseHole := ⟨1, 4, 1⟩

/-- Hole record carrying stored nets but no gross scores. -/
def c3Entry : HoleEntry :=
  { hole_number := 1, player_a_net := some 4, player_b_net := some 4 }

/-- C3 fails on the code: `_build_scorecard_rows` prefers a stored
`player_X_net` over `gross − strokes`, so a hole record with stored nets and
no gross scores still gets a net score, a `Halved` result and 0.5 points per
side — the claim says a missing gross leaves the net absent and the hole with
no result and 0 points. -/
theorem claim_C3_counterexample :
    (∀ row ∈ (build_scorecard_rows [c3Entry] 0 0 [c3Hole] 9 none).rows,
      row.gross_a = none ∧ row.gross_b = none)
    ∧ (build_scorecard_rows [c3Entry] 0 0 [c3Hole] 9 none).rows.headI.net_a
        = some 4
    ∧ (build_scorecard_rows [c3Entry] 0 0 [c3Hole] 9 none).rows.headI.result
        = .Halved
    ∧ (build_scorecard_rows [c3Entry] 0 0 [c3Hole] 9 none).rows.headI.points_a
        = some (1/2)
    ∧ (build_scorecard_rows [c3Entry] 0 0 [c3Hole] 9 none).rows.headI.points_b
        = some (1/2)
    ∧ (build_scorecard_rows [c3Entry] 0 0 [c3Hole] 9 none).meta.total_points_a
        = 9/2 := by decide

/-- C3 (amended): per active hole, the net is the stored net when the hole
record carries one, otherwise gross − allocated strokes when the gross is
present, otherwise absent; the side with the strictly lower net wins the hole
for 1 point, equal nets halve it for 0.5 each, and if either side has no net
score (in particular a missing gross with no stored net) the hole has no
result and contributes 0 points. -/
theorem claim_C3_net_and_result (holes : List HoleEntry)
    (handicap_a handicap_b : ℤ) (course_holes : List CourseHole)
    (match_length : ℕ) (start_hole : Option ℕ) (row : ScorecardRow)
    (hrow : row ∈ (build_scorecard_rows holes handicap_a handicap_b course_holes
        match_length start_hole).rows) :
    (row.net_a
        = netScore ((holeMapLookup holes row.hole_number).bind HoleEntry.player_a_net)
            row.gross_a row.strokes_a
      ∧ row.net_b
        = netScore ((holeMapLookup holes row.hole_number).bind HoleEntry.player_b_net)
            row.gross_b row.strokes_b
      ∧ row.gross_a = (holeMapLookup holes row.hole_number).bind HoleEntry.player_a_score
      ∧ row.gross_b = (holeMapLookup holes row.hole_number).bind HoleEntry.player_b_score)
    ∧ (∀ na nb, row.net_a = some na → row.net_b = some nb →
        (na < nb → row.result = .A ∧ row.points_a = some 1 ∧ row.points_b = none)
        ∧ (nb < na → row.result = .B ∧ row.points_a = none ∧ row.points_b = some 1)
        ∧ (na = nb → row.result = .Halved ∧ row.points_a = some (1/2)
            ∧ row.points_b = some (1/2)))
    ∧ ((row.net_a = none ∨ row.net_b = none) →
        row.result = .NoResult ∧ row.points_a = none ∧ row.points_b = none) := by
  obtain ⟨sfa, sfb, hr⟩ := build_scorecard_rows_rows holes handicap_a handicap_b
    course_holes match_length start_hole
  rw [hr] at hrow
  obtain ⟨hole, -, heq⟩ := List.mem_map.mp hrow
  subst heq
  rw [buildRow_eq]
  refine ⟨⟨?_, ?_, ?_, ?_⟩, ?_, ?_⟩
  · rw [scoreRow_net_a, scoreRow_hole_number, scoreRow_gross_a, scoreRow_strokes_a]
  · rw [scoreRow_net_b, scoreRow_hole_number, scoreRow_gross_b, scoreRow_strokes_b]
  · rw [scoreRow_gross_a, scoreRow_hole_number]
  · rw [scoreRow_gross_b, scoreRow_hole_number]
  · intro na nb hna hnb
    rw [scoreRow_net_a] at hna
    rw [scoreRow_net_b] at hnb
    rw [hna, hnb]
    exact scoreRow_result_cases _ _ _ _ _ _ _ _ _ na nb
  · intro h
    rw [scoreRow_net_a, scoreRow_net_b] at h
    rcases h with h | h
    · rw [h]
      refine ⟨scoreRow_noresult _ _ _ _ _ _ _ _ _ _ _ (Or.inl rfl), ?_⟩
      exact scoreRow_points_none _ _ _ _ _ _ _ _ _ _ _ (Or.inl rfl)
    · rw [h]
      refine ⟨scoreRow_noresult _ _ _ _ _ _ _ _ _ _ _ (Or.inr rfl), ?_⟩
      exact scoreRow_points_none _ _ _ _ _ _ _ _ _ _ _ (Or.inr rfl)

/-- Witness for the amended C3 at a concrete input. -/
theorem claim_C3_net_and_result_witness :
    ∃ row ∈ (build_scorecard_rows [c3Entry] 0 0 [c3Hole] 9 none).rows,
      row.net_a
        = netScore ((holeMapLookup [c3Entry] row.hole_number).bind HoleEntry.player_a_net)
            row.gross_a row.strokes_a
      ∧ ((row.net_a = none ∨ row.net_b = none) →
          row.result = .NoResult ∧ row.points_a = none ∧ row.points_b = none) := by
  refine ⟨(build_scorecard_rows [c3Entry] 0 0 [c3Hole] 9 none).rows.headI,
    by decide, ?_, ?_⟩
  · exact (claim_C3_net_and_result [c3Entry] 0 0 [c3Hole] 9 none
      ((build_scorecard_rows [c3Entry] 0 0 [c3Hole] 9 none).rows.headI)
      (by decide)).1.1
  · exact (claim_C3_net_and_result [c3Entry] 0 0 [c3Hole] 9 none
      ((build_scorecard_rows [c3Entry] 0 0 [c3Hole] 9 none).rows.headI)
      (by decide)).2.2

/-! ## C10: standings cache rebuild policy -/

/-- Cached row fixture for C10: a cache naming only Alice. -/
def c10CacheRow : StandingRow := { player_name := "Alice", division := "Open" }

/-- Refreshed row fixture for C10: a rebuild would name Bob. -/
def c10FreshRow : StandingRow := { player_name := "Bob", division := "Open" }

/-- C10 fails on the code: with a roster of Alice and Bob and a cache naming
only Alice, the cached player set disagrees with the roster, yet
`build_standings` serves the cache unchanged — the staleness test only fires
when a cached row names a player *outside* the roster, never when a roster
player is missing from the cache. -/
theorem claim_C10_counterexample :
    ¬(∀ n, n ∈ (List.map StandingRow.player_name [c10CacheRow])
        ↔ n ∈ (["Alice", "Bob"] : List String))
    ∧ build_standings [c10CacheRow] ["Alice", "Bob"] [c10FreshRow]
        = standingsGroups [c10CacheRow]
    ∧ standingsGroups [c10CacheRow] ≠ standingsGroups [c10FreshRow] := by
  refine ⟨?_, by decide, by decide⟩
  intro h
  have := (h "Bob").mpr (by decide)
  exact absurd this (by decide)

theorem standings_cache_stale_iff (cache_rows : List StandingRow)
    (player_names : List String) :
    standings_cache_stale cache_rows player_names = true
      ↔ (cache_rows = []
          ∨ (player_names ≠ [] ∧ ∃ r ∈ cache_rows, r.player_name ∉ player_names)) := by
  unfold standings_cache_stale
  simp [List.isEmpty_iff, List.any_eq_true]

/-- C10 (amended): the standings cache is rebuilt exactly when no cache exists
or when the roster is non-empty and some cached row names a player not in the
roster (a stale cached player triggers a silent rebuild, never an error);
otherwise the output is computed from the cached rows unchanged. -/
theorem claim_C10_cache_policy (cache_rows : List StandingRow)
    (player_names : List String) (refreshed : List StandingRow) :
    build_standings cache_rows player_names refreshed
      = if cache_rows = []
          ∨ (player_names ≠ [] ∧ ∃ r ∈ cache_rows, r.player_name ∉ player_names)
        then standingsGroups refreshed
        else standingsGroups cache_rows := by
  unfold build_standings
  by_cases h : cache_rows = []
      ∨ (player_names ≠ [] ∧ ∃ r ∈ cache_rows, r.player_name ∉ player_names)
  · rw [if_pos h, (standings_cache_stale_iff cache_rows player_names).mpr h]
    rfl
  · rw [if_neg h]
    have hst : standings_cache_stale cache_rows player_names = false := by
      rcases hst : standings_cache_stale cache_rows player_names with _ | _
      · rfl
      · exact absurd ((standings_cache_stale_iff _ _).mp hst) h
    rw [hst]
    rfl

/-! ## C6: finalizing a match with zero recorded holes -/

/-- A stored match result with zero recorded holes, not yet finalized. -/
def c6Match : StoredMatch := { id := 1 }

/-- Finalize context fixture for C6. -/
def c6Env : FinalizeEnv := { course_env := [] }

/-- C6 fails on the code: the finalize loop performs no recorded-hole check,
so a non-finalized match with zero recorded holes is finalized successfully
(zero totals, snapshot slot overwritten) instead of failing with a "no data"
condition and being left unchanged. -/
theorem claim_C6_counterexample :
    c6Match.holes = [] ∧ c6Match.finalized = false
    ∧ (finalize_match_targets c6Env [c6Match] [1]).toOption.map
        (fun st => st.db.map (fun m => (m.id, m.finalized, m.player_a_total)))
      = some [(1, true, some 0)] := by decide

theorem fetch_isSome_iff (db : List StoredMatch) (j : ℕ) :
    (fetch_match_result db j).isSome = true ↔ ∃ m ∈ db, m.id = j := by
  unfold fetch_match_result
  induction db with
  | nil => simp
  | cons m tl ih =>
    by_cases h : m.id = j
    · rw [List.find?_cons_of_pos _ (by simpa using h)]
      simp [h]
    · rw [List.find?_cons_of_neg _ (by simpa using h)]
      rw [ih]
      simp only [List.mem_cons]
      constructor
      · rintro ⟨m', hm', hj⟩
        exact ⟨m', Or.inr hm', hj⟩
      · rintro ⟨m', hm' | hm', hj⟩
        · subst hm'
          exact absurd hj h
        · exact ⟨m', hm', hj⟩

theorem updateById_fetch_isSome (db : List StoredMatch) (i : ℕ)
    (f : StoredMatch → StoredMatch) (j : ℕ)
    (hf : ∀ m ∈ db, (f m).id = m.id) :
    (fetch_match_result (updateById db i f) j).isSome
      = (fetch_match_result db j).isSome := by
  rw [Bool.eq_iff_iff, fetch_isSome_iff, fetch_isSome_iff]
  unfold updateById
  constructor
  · rintro ⟨m', hm', hid⟩
    obtain ⟨m, hm, rfl⟩ := List.mem_map.mp hm'
    refine ⟨m, hm, ?_⟩
    by_cases h : m.id = i
    · rw [if_pos h] at hid
      rw [hf m hm] at hid
      exact hid
    · rw [if_neg h] at hid
      exact hid
  · rintro ⟨m, hm, hid⟩
    refine ⟨(fun m => if m.id = i then f m else m) m,
      List.mem_map_of_mem _ hm, ?_⟩
    by_cases h : m.id = i
    · simp only [if_pos h]
      rw [hf m hm]
      exact hid
    · simp only [if_neg h]
      exact hid

set_option maxHeartbeats 2000000 in
theorem finalizeStep_fetch_isSome (env : FinalizeEnv) (st : FinalizeState)
    (i j : ℕ) :
    (fetch_match_result (finalizeStep env st i).db j).isSome
      = (fetch_match_result st.db j).isSome := by
  unfold finalizeStep
  split
  · rfl
  next target heq =>
    split
    · rfl
    · dsimp only
      rw [updateById_fetch_isSome, updateById_fetch_isSome, updateById_fetch_isSome]
      all_goals
        intro m hm
        rcases pyOrOptNat env.player_a_id target.player_a_id with _ | v <;>
          rcases pyOrOptNat env.player_b_id target.player_b_id with _ | w <;>
            rcases env.player_c_id with _ | x <;>
              rcases env.player_d_id with _ | y <;> rfl

theorem finalizeStep_finalized_any (env : FinalizeEnv) (st : FinalizeState)
    (i : ℕ) :
    (finalizeStep env st i).finalized_any
      = (st.finalized_any || (fetch_match_result st.db i).isSome) := by
  unfold finalizeStep
  split
  next heq => rw [heq]; simp
  next target heq =>
    rw [heq]
    split
    · simp
    · simp

theorem list_any_congr {α : Type} (l : List α) (p q : α → Bool)
    (h : ∀ a ∈ l, p a = q a) : l.any p = l.any q := by
  induction l with
  | nil => rfl
  | cons a tl ih =>
    simp only [List.any_cons]
    rw [h a (List.mem_cons_self a tl), ih (fun b hb => h b (List.mem_cons_of_mem a hb))]

theorem finalizeLoop_finalized_any (env : FinalizeEnv) (ids : List ℕ)
    (st : FinalizeState) :
    (ids.foldl (finalizeStep env) st).finalized_any
      = (st.finalized_any
          || ids.any (fun i => (fetch_match_result st.db i).isSome)) := by
  induction ids generalizing st with
  | nil => simp
  | cons i tl ih =>
    simp only [List.foldl_cons, List.any_cons]
    rw [ih (finalizeStep env st i), finalizeStep_finalized_any]
    rw [list_any_congr tl _ (fun j => (fetch_match_result st.db j).isSome)
      (fun j _ => finalizeStep_fetch_isSome env st i j)]
    rw [Bool.or_assoc]

/-- C6 (amended): the finalize target loop fails — with the
"No matches were finalized." error — exactly when none of the target ids
resolves to a stored match result; in particular a non-finalized match with
zero recorded holes is finalized successfully rather than rejected for lack
of data. -/
theorem claim_C6_finalize_no_data (env : FinalizeEnv) (db : List StoredMatch)
    (target_ids : List ℕ) :
    finalize_match_targets env db target_ids
        = Except.error "No matches were finalized."
      ↔ ∀ i ∈ target_ids, fetch_match_result db i = none := by
  unfold finalize_match_targets
  rw [show ({ db := db } : FinalizeState)
      = ({ db := db, finalized_any := false } : FinalizeState) from rfl]
  constructor
  · intro h i hi
    by_cases hres : (target_ids.foldl (finalizeStep env)
        { db := db, finalized_any := false }).finalized_any
    · rw [if_neg (by simp [hres])] at h
      exact absurd h (by simp)
    · rw [finalizeLoop_finalized_any] at hres
      simp only [Bool.false_or, List.any_eq_true, not_exists, not_and] at hres
      have := hres i hi
      cases hfetch : fetch_match_result db i with
      | none => rfl
      | some m =>
        rw [hfetch] at this
        simp at this
  · intro h
    have hany : (target_ids.foldl (finalizeStep env)
        { db := db, finalized_any := false }).finalized_any = false := by
      rw [finalizeLoop_finalized_any]
      simp only [Bool.false_or, List.any_eq_false]
      intro i hi
      rw [h i hi]
      simp
    rw [if_pos (by simp [hany])]

/-- Witness for the amended C6: with an empty store every finalize attempt
fails with the "No matches were finalized." error. -/
theorem claim_C6_finalize_no_data_witness :
    finalize_match_targets c6Env [] [1]
      = Except.error "No matches were finalized." :=
  (claim_C6_finalize_no_data c6Env [] [1]).mpr (by decide)

/-! ## C9: the active course subset -/

theorem walkActive_eq (s : List CourseHole) (hs : s ≠ []) :
    ∀ (n idx : ℕ), (hidx : idx < s.length) →
      walkActive s idx n
        = (List.range n).map
            (fun j => s.get ⟨(idx + j) % s.length,
              Nat.mod_lt _ (List.length_pos.mpr hs)⟩) := by
  intro n
  induction n with
  | zero => intro idx hidx; rfl
  | succ n ih =>
    intro idx hidx
    have hlen : 0 < s.length := List.length_pos.mpr hs
    rw [show walkActive s idx (n + 1)
        = (match s.get? idx with
           | some h => h :: walkActive s ((idx + 1) % s.length) n
           | none => []) from rfl]
    rw [List.get?_eq_get hidx]
    dsimp only
    rw [ih ((idx + 1) % s.length) (Nat.mod_lt _ hlen)]
    rw [List.range_succ_eq_map, List.map_cons, List.map_map]
    refine congrArg₂ List.cons ?_ ?_
    · refine congrArg s.get (Fin.mk_eq_mk.mpr ?_)
      rw [add_zero, Nat.mod_eq_of_lt hidx]
    · refine List.map_congr_left ?_
      intro j hj
      simp only [Function.comp]
      have hval : ((idx + 1) % s.length + j) % s.length
          = (idx + Nat.succ j) % s.length := by
        rw [Nat.mod_add_mod]
        congr 1
        omega
      exact congrArg s.get (Fin.mk_eq_mk.mpr hval)

theorem walkActive_length (s : List CourseHole) (hs : s ≠ []) (n idx : ℕ)
    (hidx : idx < s.length) : (walkActive s idx n).length = n := by
  rw [walkActive_eq s hs n idx hidx]
  simp

theorem walkActive_nodup (s : List CourseHole) (hs : s ≠ [])
    (hnod : (s.map CourseHole.hole_number).Nodup) (n idx : ℕ)
    (hidx : idx < s.length) (hn : n ≤ s.length) :
    ((walkActive s idx n).map CourseHole.hole_number).Nodup := by
  rw [walkActive_eq s hs n idx hidx, List.map_map]
  refine List.Nodup.map_on ?_ (List.nodup_range n)
  intro j1 h1 j2 h2 heq
  rw [List.mem_range] at h1 h2
  simp only [Function.comp] at heq
  have hinj : ∀ (a b : Fin s.length),
      (s.get a).hole_number = (s.get b).hole_number → a = b := by
    intro a b hab
    rw [List.get_map_rev CourseHole.hole_number,
      List.get_map_rev CourseHole.hole_number] at hab
    have := (List.nodup_iff_injective_get.mp hnod) hab
    have hval : a.val = b.val := Fin.mk_eq_mk.mp this
    exact Fin.ext hval
  have hmod := congrArg Fin.val (hinj _ _ heq)
  simp only at hmod
  have hcancel : j1 % s.length = j2 % s.length :=
    Nat.ModEq.add_left_cancel' idx hmod
  rw [Nat.mod_eq_of_lt (lt_of_lt_of_le h1 hn),
    Nat.mod_eq_of_lt (lt_of_lt_of_le h2 hn)] at hcancel
  exact hcancel

theorem headI_mem_of_ne_nil {α : Type} [Inhabited α] (l : List α)
    (h : l ≠ []) : l.headI ∈ l := by
  cases l with
  | nil => exact absurd rfl h
  | cons x t => simp

theorem activeCourse_eq_walk (course : List CourseHole) (hole_limit : ℕ)
    (selected : ℕ) (hpos : 0 < hole_limit) (hne : course ≠ []) :
    activeCourse course hole_limit selected
      = walkActive
          (List.insertionSort (fun a b => a.hole_number ≤ b.hole_number) course)
          (((List.insertionSort (fun a b => a.hole_number ≤ b.hole_number)
              course).map CourseHole.hole_number).indexOf
            (if selected ∈ ((List.insertionSort
                  (fun a b => a.hole_number ≤ b.hole_number) course).map
                    CourseHole.hole_number)
              then selected
              else ((List.insertionSort (fun a b => a.hole_number ≤ b.hole_number)
                  course).map CourseHole.hole_number).headI))
          hole_limit := by
  have hsne : List.insertionSort (fun a b => a.hole_number ≤ b.hole_number)
      course ≠ [] := by
    intro h
    have := List.length_insertionSort
      (fun a b => a.hole_number ≤ b.hole_number) course
    rw [h] at this
    exact hne (List.length_eq_zero.mp this.symm)
  have hmem : (if selected ∈ ((List.insertionSort
          (fun a b => a.hole_number ≤ b.hole_number) course).map
            CourseHole.hole_number)
        then selected
        else ((List.insertionSort (fun a b => a.hole_number ≤ b.hole_number)
            course).map CourseHole.hole_number).headI)
      ∈ ((List.insertionSort (fun a b => a.hole_number ≤ b.hole_number)
          course).map CourseHole.hole_number) := by
    split_ifs with h
    · exact h
    · refine headI_mem_of_ne_nil _ ?_
      intro hcontra
      rw [List.map_eq_nil] at hcontra
      exact hsne hcontra
  have hidx := List.indexOf_lt_length.mpr hmem
  rw [List.length_map] at hidx
  have hwne : walkActive
      (List.insertionSort (fun a b => a.hole_number ≤ b.hole_number) course)
      (((List.insertionSort (fun a b => a.hole_number ≤ b.hole_number)
          course).map CourseHole.hole_number).indexOf
        (if selected ∈ ((List.insertionSort
              (fun a b => a.hole_number ≤ b.hole_number) course).map
                CourseHole.hole_number)
          then selected
          else ((List.insertionSort (fun a b => a.hole_number ≤ b.hole_number)
              course).map CourseHole.hole_number).headI)) hole_limit ≠ [] := by
    intro h
    have hl := walkActive_length _ hsne hole_limit _ hidx
    rw [h] at hl
    simp at hl
    omega
  simp only [activeCourse]
  rw [if_neg hsne, if_neg]
  rintro ⟨h1, -⟩
  exact hwne h1

theorem build_scorecard_rows_course (holes : List HoleEntry)
    (handicap_a handicap_b : ℤ) (course_holes : List CourseHole)
    (match_length : ℕ) (start_hole : Option ℕ) :
    (build_scorecard_rows holes handicap_a handicap_b course_holes match_length
        start_hole).course
      = activeCourse course_holes
          (if match_length = 9 ∨ match_length = 18 then match_length
            else if ((holes.map HoleEntry.hole_number).foldr max 0) ≠ 0
                ∧ ((holes.map HoleEntry.hole_number).foldr max 0) ≤ 9
              then 9 else 18)
          (pyOrNat start_hole 1) := rfl

/-- Course-hole fixture for the C9 counterexample. -/
def c9Hole : CourseHole := ⟨1, 3, 1⟩

/-- C9 fails on the code: with a one-hole course and a 9-hole match the
circular walk collects the same hole nine times, so hole numbers repeat in
the active subset. -/
theorem claim_C9_counterexample :
    ((build_scorecard_rows [] 0 0 [c9Hole] 9 none).course.map
        CourseHole.hole_number)
      = [1, 1, 1, 1, 1, 1, 1, 1, 1]
    ∧ ¬ ((build_scorecard_rows [] 0 0 [c9Hole] 9 none).course.map
        CourseHole.hole_number).Nodup := by
  constructor
  · decide
  · intro h
    rw [show ((build_scorecard_rows [] 0 0 [c9Hole] 9 none).course.map
        CourseHole.hole_number) = [1, 1, 1, 1, 1, 1, 1, 1, 1] by decide] at h
    simp at h

theorem insertionSort_holes_ne_nil (course_holes : List CourseHole)
    (hne : course_holes ≠ []) :
    List.insertionSort (fun a b => a.hole_number ≤ b.hole_number)
      course_holes ≠ [] := by
  intro h
  have := List.length_insertionSort
    (fun a b => a.hole_number ≤ b.hole_number) course_holes
  rw [h] at this
  exact hne (List.length_eq_zero.mp this.symm)

theorem normalized_start_index_lt (course_holes : List CourseHole)
    (selected : ℕ) (hne : course_holes ≠ []) :
    (((List.insertionSort (fun a b => a.hole_number ≤ b.hole_number)
        course_holes).map CourseHole.hole_number).indexOf
      (if selected ∈ ((List.insertionSort
            (fun a b => a.hole_number ≤ b.hole_number) course_holes).map
              CourseHole.hole_number)
        then selected
        else ((List.insertionSort (fun a b => a.hole_number ≤ b.hole_number)
            course_holes).map CourseHole.hole_number).headI))
      < (List.insertionSort (fun a b => a.hole_number ≤ b.hole_number)
          course_holes).length := by
  have hsne := insertionSort_holes_ne_nil course_holes hne
  have hmem : (if selected ∈ ((List.insertionSort
          (fun a b => a.hole_number ≤ b.hole_number) course_holes).map
            CourseHole.hole_number)
        then selected
        else ((List.insertionSort (fun a b => a.hole_number ≤ b.hole_number)
            course_holes).map CourseHole.hole_number).headI)
      ∈ ((List.insertionSort (fun a b => a.hole_number ≤ b.hole_number)
          course_holes).map CourseHole.hole_number) := by
    split_ifs with h
    · exact h
    · refine headI_mem_of_ne_nil _ ?_
      intro hcontra
      rw [List.map_eq_nil] at hcontra
      exact hsne hcontra
  have := List.indexOf_lt_length.mpr hmem
  rwa [List.length_map] at this

/-- C9 (amended): for a non-empty course and a match length of 9 or 18, the
active subset selected by `_build_scorecard_rows` consists of `match_length`
holes read off the hole-number-sorted course list circularly from the
(normalized) start hole; when the course has at least `match_length` holes
with distinct hole numbers, no hole number repeats in the active subset. -/
theorem claim_C9_active_subset (holes : List HoleEntry)
    (handicap_a handicap_b : ℤ) (course_holes : List CourseHole)
    (match_length : ℕ) (start_hole : Option ℕ)
    (hml : match_length = 9 ∨ match_length = 18) (hne : course_holes ≠ []) :
    let s := List.insertionSort (fun a b => a.hole_number ≤ b.hole_number)
      course_holes
    let hole_numbers := s.map CourseHole.hole_number
    let selected := pyOrNat start_hole 1
    let normalized :=
      if selected ∈ hole_numbers then selected else hole_numbers.headI
    let i0 := hole_numbers.indexOf normalized
    let active := (build_scorecard_rows holes handicap_a handicap_b course_holes
        match_length start_hole).course
    active.length = match_length
    ∧ (∀ j, j < match_length → active.get? j = s.get? ((i0 + j) % s.length))
    ∧ (match_length ≤ course_holes.length →
        (course_holes.map CourseHole.hole_number).Nodup →
        (active.map CourseHole.hole_number).Nodup) := by
  intro s hole_numbers selected normalized i0 active
  have hpos : 0 < match_length := by rcases hml with h | h <;> omega
  have hsne := insertionSort_holes_ne_nil course_holes hne
  have hidx := normalized_start_index_lt course_holes selected hne
  have hact : active = walkActive s i0 match_length := by
    show (build_scorecard_rows holes handicap_a handicap_b course_holes
        match_length start_hole).course = _
    rw [build_scorecard_rows_course, if_pos hml]
    exact activeCourse_eq_walk course_holes match_length selected hpos hne
  refine ⟨?_, ?_, ?_⟩
  · rw [hact]
    exact walkActive_length s hsne match_length i0 hidx
  · intro j hj
    rw [hact, walkActive_eq s hsne match_length i0 hidx]
    rw [List.get?_map, List.get?_range hj]
    rw [List.get?_eq_get (Nat.mod_lt _ (List.length_pos.mpr hsne))]
    rfl
  · intro hlen hnod
    rw [hact]
    refine walkActive_nodup s hsne ?_ match_length i0 hidx ?_
    · exact ((List.perm_insertionSort _ course_holes).map
        CourseHole.hole_number).nodup_iff.mpr hnod
    · rw [List.length_insertionSort]
      exact hlen

/-- Nine-hole course fixture for the C9 witness. -/
def c9Course : List CourseHole :=
  (List.range 9).map (fun i => ⟨i + 1, 4, i + 1⟩)

/-- Witness for the amended C9: a full 9-hole course, a 9-hole match starting
at hole 1. -/
theorem claim_C9_active_subset_witness :
    (build_scorecard_rows [] 0 0 c9Course 9 (some 1)).course.length = 9
    ∧ ((build_scorecard_rows [] 0 0 c9Course 9 (some 1)).course.map
        CourseHole.hole_number).Nodup := by
  have h := claim_C9_active_subset [] 0 0 c9Course 9 (some 1) (Or.inl rfl)
    (by decide)
  exact ⟨h.1, h.2.2 (by decide) (by decide)⟩

/-! ## C1: the stroke allocation

Proof-side reformulation of the allocation loop: the remainder is carried as
a count of half-stroke units (`k` half-units stand for the rational
remainder `k / 2`), which makes the loop structurally recursive. -/

/-- The allocation loop in half-stroke units: `k` half-units of remainder
distribute as whole strokes (2 half-units) per hole until at most one
half-unit is left, which lands on the next hole. -/
def loopHalf (s : List CourseHole) (N : ℕ) : ℕ → ℕ → (ℕ → ℚ) → (ℕ → ℚ)
  | 0, _, alloc => alloc
  | 1, idx, alloc =>
    match s.get? (idx % N) with
    | some hole => updateAlloc alloc hole.hole_number (alloc hole.hole_number + 1/2)
    | none => alloc
  | k + 2, idx, alloc =>
    match s.get? (idx % N) with
    | some hole =>
        loopHalf s N k (idx + 1)
          (updateAlloc alloc hole.hole_number (alloc hole.hole_number + 1))
    | none => alloc

theorem allocLoop_eq_loopHalf (s : List CourseHole) (N : ℕ) (k : ℕ) :
    ∀ fuel, k ≤ fuel → ∀ idx alloc,
      allocLoop s N fuel ((k : ℚ)/2) idx alloc = loopHalf s N k idx alloc := by
  induction k using Nat.strong_induction_on with
  | _ k ih =>
    intro fuel hfuel idx alloc
    match k with
    | 0 =>
      cases fuel with
      | zero => rfl
      | succ f =>
        rw [show allocLoop s N (f + 1) (((0 : ℕ) : ℚ)/2) idx alloc
            = if 0 < (((0 : ℕ) : ℚ)/2) ∧ s ≠ [] then
                (match s.get? (idx % N) with
                 | some hole =>
                     allocLoop s N f
                       ((((0 : ℕ) : ℚ)/2)
                         - (if 1 ≤ (((0 : ℕ) : ℚ)/2) then 1 else 1/2))
                       (idx + 1)
                       (updateAlloc alloc hole.hole_number
                         (alloc hole.hole_number
                           + (if 1 ≤ (((0 : ℕ) : ℚ)/2) then 1 else 1/2)))
                 | none => alloc)
              else alloc from rfl]
        rw [if_neg (by norm_num)]
        rfl
    | 1 =>
      match fuel, hfuel with
      | f + 1, _ =>
        rw [show allocLoop s N (f + 1) (((1 : ℕ) : ℚ)/2) idx alloc
            = if 0 < (((1 : ℕ) : ℚ)/2) ∧ s ≠ [] then
                (match s.get? (idx % N) with
                 | some hole =>
                     allocLoop s N f
                       ((((1 : ℕ) : ℚ)/2)
                         - (if 1 ≤ (((1 : ℕ) : ℚ)/2) then 1 else 1/2))
                       (idx + 1)
                       (updateAlloc alloc hole.hole_number
                         (alloc hole.hole_number
                           + (if 1 ≤ (((1 : ℕ) : ℚ)/2) then 1 else 1/2)))
                 | none => alloc)
              else alloc from rfl]
        by_cases hs : s = []
        · rw [if_neg (by simp [hs])]
          subst hs
          rfl
        · rw [if_pos ⟨by norm_num, hs⟩]
          rw [show loopHalf s N 1 idx alloc
              = (match s.get? (idx % N) with
                 | some hole =>
                     updateAlloc alloc hole.hole_number
                       (alloc hole.hole_number + 1/2)
                 | none => alloc) from rfl]
          cases hget : s.get? (idx % N) with
          | none => rfl
          | some hole =>
            dsimp only
            rw [if_neg (by norm_num)]
            have hz : (((1 : ℕ) : ℚ)/2) - 1/2 = ((0 : ℕ) : ℚ)/2 := by norm_num
            rw [hz, ih 0 (by omega) f (by omega)]
            rfl
    | k + 2 =>
      match fuel, hfuel with
      | f + 1, hfuel =>
        rw [show allocLoop s N (f + 1) (((k + 2 : ℕ) : ℚ)/2) idx alloc
            = if 0 < (((k + 2 : ℕ) : ℚ)/2) ∧ s ≠ [] then
                (match s.get? (idx % N) with
                 | some hole =>
                     allocLoop s N f
                       ((((k + 2 : ℕ) : ℚ)/2)
                         - (if 1 ≤ (((k + 2 : ℕ) : ℚ)/2) then 1 else 1/2))
                       (idx + 1)
                       (updateAlloc alloc hole.hole_number
                         (alloc hole.hole_number
                           + (if 1 ≤ (((k + 2 : ℕ) : ℚ)/2) then 1 else 1/2)))
                 | none => alloc)
              else alloc from rfl]
        have hpos : (0 : ℚ) < ((k + 2 : ℕ) : ℚ)/2 := by
          push_cast
          positivity
        have hone : (1 : ℚ) ≤ ((k + 2 : ℕ) : ℚ)/2 := by
          push_cast
          rw [le_div_iff (by norm_num : (0 : ℚ) < 2)]
          have : (0 : ℚ) ≤ (k : ℚ) := Nat.cast_nonneg k
          linarith
        by_cases hs : s = []
        · rw [if_neg (by simp [hs])]
          subst hs
          rw [show loopHalf [] N (k + 2) idx alloc = alloc from rfl]
        · rw [if_pos ⟨hpos, hs⟩]
          rw [show loopHalf s N (k + 2) idx alloc
              = (match s.get? (idx % N) with
                 | some hole =>
                     loopHalf s N k (idx + 1)
                       (updateAlloc alloc hole.hole_number
                         (alloc hole.hole_number + 1))
                 | none => alloc) from rfl]
          cases hget : s.get? (idx % N) with
          | none => rfl
          | some hole =>
            dsimp only
            rw [if_pos hone]
            have hz : (((k + 2 : ℕ) : ℚ)/2) - 1 = ((k : ℕ) : ℚ)/2 := by
              push_cast
              ring
            rw [hz, ih k (by omega) f (by omega)]

/-- Extra strokes (in ℚ) the loop hands to the hole at sorted position `p`
when it starts at position `idx` with `k` half-units of remainder and never
wraps: a full stroke for the first `⌊k/2⌋` positions, a half stroke at
position `idx + ⌊k/2⌋` when `k` is odd, nothing otherwise. -/
def extraHalf (k idx p : ℕ) : ℚ :=
  if idx ≤ p ∧ 2 * (p - idx) + 1 < k then 1
  else if idx ≤ p ∧ 2 * (p - idx) + 1 = k then 1/2
  else 0

theorem extraHalf_zero (idx p : ℕ) : extraHalf 0 idx p = 0 := by
  unfold extraHalf
  rw [if_neg (by omega), if_neg (by omega)]

theorem extraHalf_step (k idx p : ℕ) :
    (if p = idx then (1 : ℚ) else 0) + extraHalf k (idx + 1) p
      = extraHalf (k + 2) idx p := by
  unfold extraHalf
  by_cases h : p = idx
  · subst h
    rw [if_pos rfl]
    rw [if_neg (by omega), if_neg (by omega), if_pos (by omega)]
    norm_num
  · rw [if_neg h]
    by_cases h1 : idx + 1 ≤ p ∧ 2 * (p - (idx + 1)) + 1 < k
    · rw [if_pos h1, if_pos (by omega)]
      norm_num
    · rw [if_neg h1]
      by_cases h2 : idx + 1 ≤ p ∧ 2 * (p - (idx + 1)) + 1 = k
      · rw [if_pos h2, if_neg (by omega), if_pos (by omega)]
        norm_num
      · rw [if_neg h2, if_neg (by omega), if_neg (by omega)]
        norm_num

theorem extraHalf_one (idx p : ℕ) :
    extraHalf 1 idx p = if p = idx then (1 : ℚ)/2 else 0 := by
  unfold extraHalf
  by_cases h : p = idx
  · subst h
    rw [if_neg (by omega), if_pos (by omega), if_pos rfl]
  · rw [if_neg (by omega), if_neg (by omega), if_neg h]

theorem loopHalf_apply (s : List CourseHole) (N : ℕ) (hN : N = s.length)
    (hnod : (s.map CourseHole.hole_number).Nodup) (k : ℕ) :
    ∀ idx (p : Fin s.length) (alloc : ℕ → ℚ),
      idx + (k + 1)/2 ≤ s.length →
      loopHalf s N k idx alloc (s.get p).hole_number
        = alloc (s.get p).hole_number + extraHalf k idx p.val := by
  subst hN
  have hinj : ∀ (a b : Fin s.length),
      (s.get a).hole_number = (s.get b).hole_number → a = b := by
    intro a b hab
    rw [List.get_map_rev CourseHole.hole_number,
      List.get_map_rev CourseHole.hole_number] at hab
    have := (List.nodup_iff_injective_get.mp hnod) hab
    exact Fin.ext (Fin.mk_eq_mk.mp this)
  induction k using Nat.strong_induction_on with
  | _ k ih =>
    intro idx p alloc hbound
    match k with
    | 0 => rw [extraHalf_zero, add_zero]; rfl
    | 1 =>
      have hidx : idx < s.length := by omega
      have hmod : idx % s.length = idx := Nat.mod_eq_of_lt hidx
      rw [show loopHalf s s.length 1 idx alloc
          = (match s.get? (idx % s.length) with
             | some hole =>
                 updateAlloc alloc hole.hole_number
                   (alloc hole.hole_number + 1/2)
             | none => alloc) from rfl]
      rw [hmod, List.get?_eq_get hidx]
      dsimp only
      rw [extraHalf_one]
      simp only [updateAlloc]
      by_cases h : p = (⟨idx, hidx⟩ : Fin s.length)
      · subst h
        rw [if_pos rfl, if_pos rfl]
      · rw [if_neg (fun hc => h (hinj p ⟨idx, hidx⟩ hc)),
          if_neg (fun hv => h (Fin.ext hv))]
        rw [add_zero]
    | k + 2 =>
      have hidx : idx < s.length := by omega
      have hmod : idx % s.length = idx := Nat.mod_eq_of_lt hidx
      rw [show loopHalf s s.length (k + 2) idx alloc
          = (match s.get? (idx % s.length) with
             | some hole =>
                 loopHalf s s.length k (idx + 1)
                   (updateAlloc alloc hole.hole_number
                     (alloc hole.hole_number + 1))
             | none => alloc) from rfl]
      rw [hmod, List.get?_eq_get hidx]
      dsimp only
      rw [ih k (by omega) (idx + 1) p _ (by omega)]
      rw [← extraHalf_step k idx p.val]
      simp only [updateAlloc]
      by_cases h : p = (⟨idx, hidx⟩ : Fin s.length)
      · subst h
        rw [if_pos rfl, if_pos rfl]
        ring
      · rw [if_neg (fun hc => h (hinj p ⟨idx, hidx⟩ hc)),
          if_neg (fun hv => h (Fin.ext hv))]
        ring

theorem sum_map_updateAlloc (K : List ℕ) (hK : K.Nodup) (alloc : ℕ → ℚ)
    (key : ℕ) (hkey : key ∈ K) (c : ℚ) :
    (K.map (updateAlloc alloc key (alloc key + c))).sum
      = (K.map alloc).sum + c := by
  induction K with
  | nil => exact absurd hkey (List.not_mem_nil key)
  | cons n tl ih =>
    rw [List.map_cons, List.map_cons, List.sum_cons, List.sum_cons]
    rcases List.mem_cons.mp hkey with rfl | htl
    · have hnot : key ∉ tl := (List.nodup_cons.mp hK).1
      rw [show updateAlloc alloc key (alloc key + c) key = alloc key + c by
        unfold updateAlloc; rw [if_pos rfl]]
      rw [List.map_congr_left (fun m hm => by
        unfold updateAlloc
        refine if_neg ?_
        intro hc
        rw [hc] at hm
        exact hnot hm)]
      ring
    · have hne : n ≠ key := by
        rintro rfl
        exact (List.nodup_cons.mp hK).1 htl
      rw [show updateAlloc alloc key (alloc key + c) n = alloc n by
        unfold updateAlloc; rw [if_neg hne]]
      rw [ih (List.nodup_cons.mp hK).2 htl]
      ring

theorem loopHalf_sum (s : List CourseHole) (hs : s ≠ [])
    (N : ℕ) (hN : N = s.length) (K : List ℕ) (hK : K.Nodup)
    (hcov : ∀ h ∈ s, h.hole_number ∈ K) (k : ℕ) :
    ∀ idx (alloc : ℕ → ℚ),
      (K.map (loopHalf s N k idx alloc)).sum
        = (K.map alloc).sum + (k : ℚ)/2 := by
  subst hN
  have hlen : 0 < s.length := List.length_pos.mpr hs
  induction k using Nat.strong_induction_on with
  | _ k ih =>
    intro idx alloc
    match k with
    | 0 =>
      rw [show loopHalf s s.length 0 idx alloc = alloc from rfl]
      norm_num
    | 1 =>
      have hmod : idx % s.length < s.length := Nat.mod_lt _ hlen
      rw [show loopHalf s s.length 1 idx alloc
          = (match s.get? (idx % s.length) with
             | some hole =>
                 updateAlloc alloc hole.hole_number
                   (alloc hole.hole_number + 1/2)
             | none => alloc) from rfl]
      rw [List.get?_eq_get hmod]
      dsimp only
      rw [sum_map_updateAlloc K hK alloc _
        (hcov _ (List.get_mem s _ hmod)) (1/2)]
      norm_num
    | k + 2 =>
      have hmod : idx % s.length < s.length := Nat.mod_lt _ hlen
      rw [show loopHalf s s.length (k + 2) idx alloc
          = (match s.get? (idx % s.length) with
             | some hole =>
                 loopHalf s s.length k (idx + 1)
                   (updateAlloc alloc hole.hole_number
                     (alloc hole.hole_number + 1))
             | none => alloc) from rfl]
      rw [List.get?_eq_get hmod]
      dsimp only
      rw [ih k (by omega) (idx + 1) _]
      rw [sum_map_updateAlloc K hK alloc _
        (hcov _ (List.get_mem s _ hmod)) 1]
      push_cast
      ring

theorem allocBase_eq_floor (k N : ℕ) :
    allocBase ((k : ℚ)/2) N = ⌊((k : ℚ)/2) / (N : ℚ)⌋ := by
  unfold allocBase
  split_ifs with h
  · rfl
  · have hk : k = 0 := by
      by_contra hk0
      have : 0 < k := Nat.pos_of_ne_zero hk0
      exact h (by positivity)
    subst hk
    norm_num

theorem allocBase_half_units (k N : ℕ) (hN : 0 < N) :
    allocBase ((k : ℚ)/2) N = ((k / (2 * N) : ℕ) : ℤ) := by
  rw [allocBase_eq_floor]
  rw [div_div]
  have h2N : ((2 : ℚ) * N) = ((2 * N : ℕ) : ℚ) := by push_cast; ring
  rw [h2N]
  rw [← Int.natCast_floor_eq_floor
    (by positivity : (0 : ℚ) ≤ (k : ℚ) / ((2 * N : ℕ) : ℚ))]
  rw [Nat.floor_div_nat, Nat.floor_natCast]

theorem insertionSort_ne_nil {α : Type} (r : α → α → Prop) [DecidableRel r]
    (l : List α) (hne : l ≠ []) : l.insertionSort r ≠ [] := by
  intro h
  have := List.length_insertionSort r l
  rw [h] at this
  exact hne (List.length_eq_zero.mp this.symm)

theorem strokeAllocFun_eq_loopHalf (k : ℕ) (course : List CourseHole)
    (hne : course ≠ []) :
    strokeAllocFun ((k : ℚ)/2) course
      = loopHalf
          (List.insertionSort (fun a b => a.handicap ≤ b.handicap) course)
          course.length (k % (2 * course.length)) 0
          (fun n => if n ∈ course.map CourseHole.hole_number
            then ((k / (2 * course.length) : ℕ) : ℚ) else 0) := by
  have hN : 0 < course.length := List.length_pos.mpr hne
  have hbase := allocBase_half_units k course.length hN
  have hdm := Nat.div_add_mod k (2 * course.length)
  have hq : (2 : ℚ) * (course.length : ℚ)
      * ((k / (2 * course.length) : ℕ) : ℚ)
      + ((k % (2 * course.length) : ℕ) : ℚ) = (k : ℚ) := by
    exact_mod_cast hdm
  have hrem : ((k : ℚ)/2)
      - (allocBase ((k : ℚ)/2) course.length : ℚ) * (course.length : ℚ)
      = ((k % (2 * course.length) : ℕ) : ℚ)/2 := by
    rw [hbase, Int.cast_natCast]
    linear_combination (-1/2 : ℚ) * hq
  have hfuel : (⌈(2 : ℚ) * (((k % (2 * course.length) : ℕ) : ℚ)/2)⌉).toNat + 1
      = k % (2 * course.length) + 1 := by
    have h2 : ((2 : ℚ) * (((k % (2 * course.length) : ℕ) : ℚ)/2))
        = ((k % (2 * course.length) : ℕ) : ℚ) := by ring
    rw [h2, Int.ceil_natCast, Int.toNat_natCast]
  unfold strokeAllocFun
  rw [if_neg hne]
  simp only
  rw [hrem, hfuel, hbase]
  rw [allocLoop_eq_loopHalf _ course.length (k % (2 * course.length))
    (k % (2 * course.length) + 1) (by omega) 0]
  norm_cast

theorem strokeAllocFun_sum (k : ℕ) (course : List CourseHole)
    (hne : course ≠ [])
    (hnod : (course.map CourseHole.hole_number).Nodup) :
    (course.map
        (fun h => strokeAllocFun ((k : ℚ)/2) course h.hole_number)).sum
      = (k : ℚ)/2 := by
  have hN : 0 < course.length := List.length_pos.mpr hne
  have hsne := insertionSort_ne_nil
    (fun a b : CourseHole => a.handicap ≤ b.handicap) course hne
  have hslen : (List.insertionSort (fun a b => a.handicap ≤ b.handicap)
      course).length = course.length := List.length_insertionSort _ _
  rw [show (course.map
        (fun h => strokeAllocFun ((k : ℚ)/2) course h.hole_number))
      = ((course.map CourseHole.hole_number).map
          (strokeAllocFun ((k : ℚ)/2) course)) by rw [List.map_map]; rfl]
  rw [strokeAllocFun_eq_loopHalf k course hne]
  rw [loopHalf_sum _ hsne course.length hslen.symm
    (course.map CourseHole.hole_number) hnod
    (fun h hh => List.mem_map_of_mem CourseHole.hole_number
      ((List.perm_insertionSort _ course).mem_iff.mp hh))]
  have hconst : ((course.map CourseHole.hole_number).map
      (fun n => if n ∈ course.map CourseHole.hole_number
        then ((k / (2 * course.length) : ℕ) : ℚ) else 0)).sum
      = (course.length : ℚ) * ((k / (2 * course.length) : ℕ) : ℚ) := by
    rw [List.map_congr_left (fun n hn => if_pos hn)]
    rw [List.map_const', List.sum_replicate, List.length_map, nsmul_eq_mul]
  rw [hconst]
  have hdm := Nat.div_add_mod k (2 * course.length)
  have hq : (2 : ℚ) * (course.length : ℚ)
      * ((k / (2 * course.length) : ℕ) : ℚ)
      + ((k % (2 * course.length) : ℕ) : ℚ) = (k : ℚ) := by
    exact_mod_cast hdm
  linear_combination (1/2 : ℚ) * hq

theorem extraHalf_start (m p : ℕ) :
    extraHalf m 0 p
      = (if 2 * p + 1 < m then (1 : ℚ)
         else if 2 * p + 1 = m then 1/2 else 0) := by
  unfold extraHalf
  simp [Nat.zero_le, Nat.sub_zero]

/-- C1: for a non-negative half-integer differential `D = k/2` and a non-empty
course with distinct hole numbers and distinct stroke indexes, the allocation
gives every hole `⌊D/N⌋` base strokes; walking the stroke-index-sorted holes
(hardest first — with distinct stroke indexes the hole-number tie-break never
fires), the first `⌊remainder⌋` holes each get one extra stroke and, when a
half unit remains, the next hole gets the extra 0.5; the returned mapping has
one entry per hole and its values sum to exactly `D`. -/
theorem claim_C1_stroke_allocation (k : ℕ) (course_holes : List CourseHole)
    (hne : course_holes ≠ [])
    (hnodN : (course_holes.map CourseHole.hole_number).Nodup)
    (hnodH : (course_holes.map CourseHole.handicap).Nodup) :
    let D : ℚ := (k : ℚ)/2
    let N := course_holes.length
    let s := List.insertionSort (fun a b => a.handicap ≤ b.handicap)
      course_holes
    let m := k % (2 * N)
    List.Sorted (fun a b => a.handicap ≤ b.handicap) s
    ∧ s.Perm course_holes
    ∧ allocBase D N = ⌊D / (N : ℚ)⌋
    ∧ (∀ p : Fin s.length,
        strokeAllocFun D course_holes (s.get p).hole_number
          = ((⌊D / (N : ℚ)⌋ : ℤ) : ℚ)
            + (if 2 * p.val + 1 < m then (1 : ℚ)
               else if 2 * p.val + 1 = m then 1/2 else 0))
    ∧ stroke_allocation D course_holes
        = course_holes.map
            (fun h => (h.hole_number, strokeAllocFun D course_holes h.hole_number))
    ∧ ((stroke_allocation D course_holes).map Prod.snd).sum = D := by
  intro D N s m
  haveI hTot : IsTotal CourseHole (fun a b => a.handicap ≤ b.handicap) :=
    ⟨fun a b => Nat.le_total _ _⟩
  haveI hTrans : IsTrans CourseHole (fun a b => a.handicap ≤ b.handicap) :=
    ⟨fun _ _ _ hab hbc => le_trans hab hbc⟩
  have hN : 0 < N := List.length_pos.mpr hne
  have hperm : s.Perm course_holes := List.perm_insertionSort _ _
  have hsne : s ≠ [] := insertionSort_ne_nil _ _ hne
  have hslen : s.length = N := List.length_insertionSort _ _
  have hnods : (s.map CourseHole.hole_number).Nodup :=
    (hperm.map CourseHole.hole_number).nodup_iff.mpr hnodN
  have hbase : ⌊D / (N : ℚ)⌋ = ((k / (2 * N) : ℕ) : ℤ) := by
    rw [← allocBase_eq_floor]
    exact allocBase_half_units k N hN
  have hmlt : m < 2 * N := Nat.mod_lt _ (by omega)
  have hmapping : stroke_allocation D course_holes
      = course_holes.map
          (fun h => (h.hole_number,
            strokeAllocFun D course_holes h.hole_number)) := by
    unfold stroke_allocation
    rw [if_neg hne, List.dedup_eq_self.mpr hnodN, List.map_map]
    rfl
  refine ⟨List.sorted_insertionSort _ _, hperm, allocBase_eq_floor k N, ?_,
    hmapping, ?_⟩
  · intro p
    rw [show strokeAllocFun D course_holes = strokeAllocFun ((k : ℚ)/2)
        course_holes from rfl]
    rw [strokeAllocFun_eq_loopHalf k course_holes hne]
    rw [loopHalf_apply s N hslen.symm hnods m 0 p _ (by omega)]
    rw [extraHalf_start]
    have hmem : (s.get p).hole_number ∈ course_holes.map CourseHole.hole_number :=
      List.mem_map_of_mem CourseHole.hole_number
        (hperm.mem_iff.mp (List.get_mem s p.val p.isLt))
    rw [if_pos hmem, hbase, Int.cast_natCast]
  · rw [hmapping, List.map_map]
    rw [show ((fun p : ℕ × ℚ => p.snd) ∘ (fun h : CourseHole =>
        (h.hole_number, strokeAllocFun D course_holes h.hole_number)))
      = (fun h : CourseHole =>
          strokeAllocFun ((k : ℚ)/2) course_holes h.hole_number) from rfl]
    exact strokeAllocFun_sum k course_holes hne hnodN

/-- Witness for C1: a 4.5-stroke differential over a full 9-hole course. -/
theorem claim_C1_stroke_allocation_witness :
    ((stroke_allocation (((9 : ℕ) : ℚ)/2) c9Course).map Prod.snd).sum
      = ((9 : ℕ) : ℚ)/2 :=
  (claim_C1_stroke_allocation 9 c9Course (by decide) (by decide)
    (by decide)).2.2.2.2.2

/-! ## C8: stroke totals per side -/

theorem build_meta_stroke_count (holes : List HoleEntry)
    (handicap_a handicap_b : ℤ) (course_holes : List CourseHole)
    (match_length : ℕ) (start_hole : Option ℕ) :
    (build_scorecard_rows holes handicap_a handicap_b course_holes match_length
        start_hole).meta.stroke_count
      = (if (if match_length = 9 ∨ match_length = 18 then match_length
             else if ((holes.map HoleEntry.hole_number).foldr max 0) ≠ 0
                 ∧ ((holes.map HoleEntry.hole_number).foldr max 0) ≤ 9
               then 9 else 18) = 9
          then ((|handicap_a - handicap_b| : ℤ) : ℚ)/2
          else ((|handicap_a - handicap_b| : ℤ) : ℚ)) := rfl

theorem build_meta_strokes_sides (holes : List HoleEntry)
    (handicap_a handicap_b : ℤ) (course_holes : List CourseHole)
    (match_length : ℕ) (start_hole : Option ℕ) :
    (build_scorecard_rows holes handicap_a handicap_b course_holes match_length
        start_hole).meta.strokes_a
      = (if 0 < handicap_a - handicap_b
          then (build_scorecard_rows holes handicap_a handicap_b course_holes
              match_length start_hole).meta.stroke_count
          else 0)
    ∧ (build_scorecard_rows holes handicap_a handicap_b course_holes
        match_length start_hole).meta.strokes_b
      = (if handicap_a - handicap_b < 0
          then (build_scorecard_rows holes handicap_a handicap_b course_holes
              match_length start_hole).meta.stroke_count
          else 0) := ⟨rfl, rfl⟩

theorem build_rows_strokes_eq (holes : List HoleEntry)
    (handicap_a handicap_b : ℤ) (course_holes : List CourseHole)
    (match_length : ℕ) (start_hole : Option ℕ) :
    (build_scorecard_rows holes handicap_a handicap_b course_holes match_length
        start_hole).rows
      = ((build_scorecard_rows holes handicap_a handicap_b course_holes
          match_length start_hole).course).map
          (buildRow (holeMapLookup holes)
            (if 0 < handicap_a - handicap_b
              then strokeAllocFun
                ((build_scorecard_rows holes handicap_a handicap_b course_holes
                    match_length start_hole).meta.stroke_count)
                ((build_scorecard_rows holes handicap_a handicap_b course_holes
                    match_length start_hole).course)
              else fun _ => 0)
            (if handicap_a - handicap_b < 0
              then strokeAllocFun
                ((build_scorecard_rows holes handicap_a handicap_b course_holes
                    match_length start_hole).meta.stroke_count)
                ((build_scorecard_rows holes handicap_a handicap_b course_holes
                    match_length start_hole).course)
              else fun _ => 0)) := rfl

theorem activeCourse_facts (course_holes : List CourseHole) (ml selected : ℕ)
    (hpos : 0 < ml) (hne : course_holes ≠ []) :
    (activeCourse course_holes ml selected).length = ml
    ∧ activeCourse course_holes ml selected ≠ []
    ∧ (ml ≤ course_holes.length →
        (course_holes.map CourseHole.hole_number).Nodup →
        ((activeCourse course_holes ml selected).map
          CourseHole.hole_number).Nodup) := by
  have hsne := insertionSort_holes_ne_nil course_holes hne
  have hidx := normalized_start_index_lt course_holes selected hne
  rw [activeCourse_eq_walk course_holes ml selected hpos hne]
  have hlen := walkActive_length _ hsne ml _ hidx
  refine ⟨hlen, ?_, ?_⟩
  · intro h
    rw [h] at hlen
    simp at hlen
    omega
  · intro hml hnod
    refine walkActive_nodup _ hsne ?_ ml _ hidx ?_
    · exact ((List.perm_insertionSort _ course_holes).map
        CourseHole.hole_number).nodup_iff.mpr hnod
    · rw [List.length_insertionSort]
      exact hml

/-- C8: the scorecard allocates strokes only to the side with the higher
handicap; that side's allocated strokes sum to the absolute handicap
differential (halved for a 9-hole match) and the advantaged side gets 0
strokes on every hole; with equal handicaps nobody receives strokes. -/
theorem claim_C8_stroke_totals (holes : List HoleEntry)
    (handicap_a handicap_b : ℤ) (course_holes : List CourseHole)
    (match_length : ℕ) (start_hole : Option ℕ)
    (hml : match_length = 9 ∨ match_length = 18) (hne : course_holes ≠ [])
    (hlen : match_length ≤ course_holes.length)
    (hnodN : (course_holes.map CourseHole.hole_number).Nodup) :
    let d := build_scorecard_rows holes handicap_a handicap_b course_holes
      match_length start_hole
    let D : ℚ := if match_length = 9
      then ((|handicap_a - handicap_b| : ℤ) : ℚ)/2
      else ((|handicap_a - handicap_b| : ℤ) : ℚ)
    d.meta.stroke_count = D
    ∧ (handicap_b < handicap_a →
        (∀ row ∈ d.rows, row.strokes_b = 0)
        ∧ (d.rows.map ScorecardRow.strokes_a).sum = D
        ∧ d.meta.strokes_a = D ∧ d.meta.strokes_b = 0)
    ∧ (handicap_a < handicap_b →
        (∀ row ∈ d.rows, row.strokes_a = 0)
        ∧ (d.rows.map ScorecardRow.strokes_b).sum = D
        ∧ d.meta.strokes_b = D ∧ d.meta.strokes_a = 0)
    ∧ (handicap_a = handicap_b →
        ∀ row ∈ d.rows, row.strokes_a = 0 ∧ row.strokes_b = 0) := by
  intro d D
  have hpos : 0 < match_length := by rcases hml with h | h <;> omega
  have hel : (if match_length = 9 ∨ match_length = 18 then match_length
      else if ((holes.map HoleEntry.hole_number).foldr max 0) ≠ 0
          ∧ ((holes.map HoleEntry.hole_number).foldr max 0) ≤ 9
        then 9 else 18) = match_length := if_pos hml
  have hms : d.meta.stroke_count = D := by
    rw [show d.meta.stroke_count = _ from build_meta_stroke_count holes
      handicap_a handicap_b course_holes match_length start_hole]
    rw [hel]
  have hcourse : d.course = activeCourse course_holes match_length
      (pyOrNat start_hole 1) := by
    rw [show d.course = _ from build_scorecard_rows_course holes handicap_a
      handicap_b course_holes match_length start_hole]
    rw [hel]
  obtain ⟨hclen, hcne, hcnod⟩ := activeCourse_facts course_holes match_length
    (pyOrNat start_hole 1) hpos hne
  have hcne' : d.course ≠ [] := by rw [hcourse]; exact hcne
  have hcnod' : (d.course.map CourseHole.hole_number).Nodup := by
    rw [hcourse]
    exact hcnod hlen hnodN
  have hDhalf : ∃ kk : ℕ, D = ((kk : ℕ) : ℚ)/2 := by
    have habs : ((|handicap_a - handicap_b|.toNat : ℕ) : ℚ)
        = ((|handicap_a - handicap_b| : ℤ) : ℚ) := by
      have := Int.toNat_of_nonneg (abs_nonneg (handicap_a - handicap_b))
      exact_mod_cast congrArg (fun z : ℤ => (z : ℚ)) this
    rcases hml with h9 | h18
    · refine ⟨|handicap_a - handicap_b|.toNat, ?_⟩
      rw [show D = ((|handicap_a - handicap_b| : ℤ) : ℚ)/2 from if_pos h9]
      rw [habs]
    · refine ⟨2 * |handicap_a - handicap_b|.toNat, ?_⟩
      have h18ne : match_length ≠ 9 := by omega
      rw [show D = ((|handicap_a - handicap_b| : ℤ) : ℚ) from if_neg h18ne]
      push_cast
      push_cast at habs
      linarith
  obtain ⟨kk, hkk⟩ := hDhalf
  have hsum : (d.course.map
      (fun h => strokeAllocFun D d.course h.hole_number)).sum = D := by
    rw [hkk]
    exact strokeAllocFun_sum kk d.course hcne' hcnod'
  refine ⟨hms, ?_, ?_, ?_⟩
  · intro hba
    have hdiff : 0 < handicap_a - handicap_b := by omega
    have hrows : d.rows = d.course.map (buildRow (holeMapLookup holes)
        (strokeAllocFun D d.course) (fun _ => 0)) := by
      rw [show d.rows = _ from build_rows_strokes_eq holes handicap_a
        handicap_b course_holes match_length start_hole]
      rw [if_pos hdiff, if_neg (by omega), hms]
    refine ⟨?_, ?_, ?_, ?_⟩
    · intro row hrow
      rw [hrows] at hrow
      obtain ⟨hole, -, rfl⟩ := List.mem_map.mp hrow
      rw [buildRow_eq, scoreRow_strokes_b]
    · rw [hrows, List.map_map]
      rw [show (ScorecardRow.strokes_a ∘ buildRow (holeMapLookup holes)
          (strokeAllocFun D d.course) (fun _ => 0))
        = (fun h : CourseHole => strokeAllocFun D d.course h.hole_number) from
          funext (fun hole => by
            simp only [Function.comp]
            rw [buildRow_eq, scoreRow_strokes_a])]
      exact hsum
    · rw [(build_meta_strokes_sides holes handicap_a handicap_b course_holes
        match_length start_hole).1, if_pos hdiff]
      exact hms
    · rw [(build_meta_strokes_sides holes handicap_a handicap_b course_holes
        match_length start_hole).2, if_neg (by omega)]
  · intro hab
    have hdiff : handicap_a - handicap_b < 0 := by omega
    have hrows : d.rows = d.course.map (buildRow (holeMapLookup holes)
        (fun _ => 0) (strokeAllocFun D d.course)) := by
      rw [show d.rows = _ from build_rows_strokes_eq holes handicap_a
        handicap_b course_holes match_length start_hole]
      rw [if_pos hdiff, if_neg (by omega), hms]
    refine ⟨?_, ?_, ?_, ?_⟩
    · intro row hrow
      rw [hrows] at hrow
      obtain ⟨hole, -, rfl⟩ := List.mem_map.mp hrow
      rw [buildRow_eq, scoreRow_strokes_a]
    · rw [hrows, List.map_map]
      rw [show (ScorecardRow.strokes_b ∘ buildRow (holeMapLookup holes)
          (fun _ => 0) (strokeAllocFun D d.course))
        = (fun h : CourseHole => strokeAllocFun D d.course h.hole_number) from
          funext (fun hole => by
            simp only [Function.comp]
            rw [buildRow_eq, scoreRow_strokes_b])]
      exact hsum
    · rw [(build_meta_strokes_sides holes handicap_a handicap_b course_holes
        match_length start_hole).2, if_pos hdiff]
      exact hms
    · rw [(build_meta_strokes_sides holes handicap_a handicap_b course_holes
        match_length start_hole).1, if_neg (by omega)]
  · intro hab
    have hrows : d.rows = d.course.map (buildRow (holeMapLookup holes)
        (fun _ => 0) (fun _ => 0)) := by
      rw [show d.rows = _ from build_rows_strokes_eq holes handicap_a
        handicap_b course_holes match_length start_hole]
      rw [if_neg (by omega), if_neg (by omega)]
    intro row hrow
    rw [hrows] at hrow
    obtain ⟨hole, -, rfl⟩ := List.mem_map.mp hrow
    rw [buildRow_eq, scoreRow_strokes_a, scoreRow_strokes_b]
    exact ⟨rfl, rfl⟩

/-- Witness for C8: handicaps 12 and 6 over a full 9-hole course, 9-hole
match — the disadvantaged side receives 3 strokes in total. -/
theorem claim_C8_stroke_totals_witness :
    ((build_scorecard_rows [] 12 6 c9Course 9 none).rows.map
        ScorecardRow.strokes_a).sum = ((|12 - 6| : ℤ) : ℚ)/2
    ∧ ∀ row ∈ (build_scorecard_rows [] 12 6 c9Course 9 none).rows,
        row.strokes_b = 0 := by
  have h := claim_C8_stroke_totals [] 12 6 c9Course 9 none (Or.inl rfl)
    (by decide) (by decide) (by decide)
  have h2 := h.2.1 (by norm_num)
  refine ⟨?_, h2.1⟩
  have := h2.2.1
  rwa [if_pos rfl] at this

end GSPro
